import Mathlib

/-!
Verification of the Task-Manager-MCP natural-language command router
(`streamlit-app/app.py`) against its specification.

Text is modelled as `List Char` (Python `str`).  Python string operations
used by the code (`lower`, `strip`, `replace`, `split`, `join`, `find`,
`rfind`, slicing, substring test `in`) are embedded below with their Python
semantics.  JSON values (the payloads of `json.loads` / `json.dumps`) are
modelled by the mutual inductive `JVal`/`JArr`/`JObj`; JSON numerals are
restricted to integers (float payloads are outside the shallow embedding).
-/

/-- Shorthand: the character list of a string literal. -/
def cs (s : String) : List Char := s.toList

/-! ## Python string primitives -/

/-- The whitespace characters removed by Python `str.strip()`. -/
def isPySpace (c : Char) : Bool :=
  c = ' ' || c = '\t' || c = '\n' || c = '\r' || c = '\x0b' || c = '\x0c'

/-- Python `s.strip()`: drop whitespace from both ends. -/
def pyStrip (s : List Char) : List Char :=
  (((s.dropWhile isPySpace).reverse).dropWhile isPySpace).reverse

/-- Python `s.lower()` (the code only ever lowers ASCII command words). -/
def lowerStr (s : List Char) : List Char := s.map Char.toLower

/-- Python substring test `pat in s`. -/
def containsSub (pat : List Char) : List Char → Bool
  | [] => pat.isEmpty
  | c :: rest => pat.isPrefixOf (c :: rest) || containsSub pat rest

/-- Python `any(w in s for w in pats)`. -/
def containsAny (pats : List (List Char)) (s : List Char) : Bool :=
  pats.any (fun p => containsSub p s)

/-- Worker for `pyReplace`; the fuel argument only forces structural
recursion and is always instantiated with the length of the text, which
bounds the number of steps. -/
def pyReplaceGo (pat : List Char) : Nat → List Char → List Char
  | 0, s => s
  | _ + 1, [] => []
  | fuel + 1, c :: rest =>
    if pat.isPrefixOf (c :: rest) then pyReplaceGo pat fuel ((c :: rest).drop pat.length)
    else c :: pyReplaceGo pat fuel rest

/-- Python `s.replace(pat, '')` for a non-empty `pat`: remove every
(leftmost, non-overlapping) occurrence of `pat`. -/
def pyReplace (pat s : List Char) : List Char :=
  if pat.isEmpty then s else pyReplaceGo pat s.length s

/-- Python `s.split(sep)` for a one-character separator. -/
def pySplit (sep : Char) : List Char → List (List Char)
  | [] => [[]]
  | c :: rest =>
    if c = sep then [] :: pySplit sep rest
    else
      match pySplit sep rest with
      | [] => [[c]]
      | h :: t => (c :: h) :: t

/-- Python `sep.join(parts)`. -/
def pyJoin (sep : List Char) : List (List Char) → List Char
  | [] => []
  | [x] => x
  | x :: y :: rest => x ++ sep ++ pyJoin sep (y :: rest)

/-- Index of the first occurrence of `c`, if any. -/
def firstIdx (c : Char) : List Char → Option Nat
  | [] => none
  | x :: rest => if x = c then some 0 else (firstIdx c rest).map (· + 1)

/-- Python `s.find(c)`: index of first occurrence, `-1` when absent. -/
def pyFind (c : Char) (s : List Char) : Int :=
  match firstIdx c s with
  | some i => (i : Int)
  | none => -1

/-- Python `s.rfind(c)`: index of last occurrence, `-1` when absent. -/
def pyRFind (c : Char) (s : List Char) : Int :=
  match firstIdx c s.reverse with
  | some j => (s.length : Int) - 1 - (j : Int)
  | none => -1

/-- Python slice `s[a:b]` for the non-negative indices produced at the one
slicing site of the code (`a` is a found index, `b` is `rfind + 1 ≥ 0`). -/
def pySlice (a b : Int) (s : List Char) : List Char :=
  (s.take b.toNat).drop a.toNat

/-! ## JSON data model

`JVal` models the values handled by Python's `json` module as used here.
Objects keep their members in textual order; keys are looked up first
match (Python dicts produced by `json.loads` have unique keys). -/

mutual
inductive JVal : Type where
  | null : JVal
  | bool (b : Bool) : JVal
  | num (n : Int) : JVal
  | str (s : List Char) : JVal
  | arr (elems : JArr) : JVal
  | obj (members : JObj) : JVal
inductive JArr : Type where
  | nil : JArr
  | cons (head : JVal) (tail : JArr) : JArr
inductive JObj : Type where
  | nil : JObj
  | cons (key : List Char) (val : JVal) (tail : JObj) : JObj
end

/-- First-match key lookup in a JSON object (Python `d[k]` / `d.get(k)`). -/
def JObj.get? : JObj → List Char → Option JVal
  | .nil, _ => none
  | .cons k v t, key => if k = key then some v else t.get? key

/-- Python `d.get(k, default)`; with default `JVal.null` it also models
`d.get(k)` returning `None`. -/
def JObj.getD (o : JObj) (key : List Char) (d : JVal) : JVal :=
  (o.get? key).getD d

/-- Python key-membership test `k in d`. -/
def JObj.hasKey (o : JObj) (key : List Char) : Bool :=
  (o.get? key).isSome

/-- Python truthiness of a JSON value (`bool(v)`): `None`, `False`, `0`,
`""`, `[]` and the empty dict are falsy. -/
def pyTruthy : JVal → Bool
  | .null => false
  | .bool b => b
  | .num n => n ≠ 0
  | .str s => !s.isEmpty
  | .arr .nil => false
  | .arr (.cons _ _) => true
  | .obj .nil => false
  | .obj (.cons _ _ _) => true

/-! ## JSON serialization (`json.dumps` with its default separators) -/

/-- Decimal digit character. -/
def digitChar (m : Nat) : Char :=
  if m = 0 then '0' else if m = 1 then '1' else if m = 2 then '2'
  else if m = 3 then '3' else if m = 4 then '4' else if m = 5 then '5'
  else if m = 6 then '6' else if m = 7 then '7' else if m = 8 then '8' else '9'

/-- Digit accumulation for `serNat`; fuel-structural, fuel `n` suffices. -/
def serNatGo : Nat → Nat → List Char → List Char
  | 0, _, acc => acc
  | fuel + 1, n, acc =>
    if n = 0 then acc else serNatGo fuel (n / 10) (digitChar (n % 10) :: acc)

/-- Decimal numeral of a natural number. -/
def serNat (n : Nat) : List Char :=
  if n = 0 then ['0'] else serNatGo n n []

/-- Decimal numeral of an integer. -/
def serInt (i : Int) : List Char :=
  if i < 0 then '-' :: serNat i.natAbs else serNat i.toNat

/-- JSON string escaping of one character (the escapes `json.dumps` uses
for the delimiter, the backslash and ASCII control whitespace). -/
def escChar (c : Char) : List Char :=
  if c = '"' then ['\\', '"']
  else if c = '\\' then ['\\', '\\']
  else if c = '\n' then ['\\', 'n']
  else if c = '\r' then ['\\', 'r']
  else if c = '\t' then ['\\', 't']
  else [c]

/-- Escape every character of a string body. -/
def escList : List Char → List Char
  | [] => []
  | c :: rest => escChar c ++ escList rest

/-- Serialized JSON string (quoted, escaped). -/
def serStr (s : List Char) : List Char :=
  '"' :: (escList s ++ ['"'])

mutual
/-- `json.dumps` of a value (default separators `", "` and `": "`). -/
def JVal.ser : JVal → List Char
  | .null => cs "null"
  | .bool true => cs "true"
  | .bool false => cs "false"
  | .num n => serInt n
  | .str s => serStr s
  | .arr a => '[' :: (a.serElems ++ [']'])
  | .obj o => '{' :: (o.serMembers ++ ['}'])
/-- Comma-joined serialized array elements. -/
def JArr.serElems : JArr → List Char
  | .nil => []
  | .cons v .nil => v.ser
  | .cons v (.cons w t) => v.ser ++ ',' :: ' ' :: (JArr.cons w t).serElems
/-- Comma-joined serialized object members. -/
def JObj.serMembers : JObj → List Char
  | .nil => []
  | .cons k v .nil => serStr k ++ ':' :: ' ' :: v.ser
  | .cons k v (.cons k2 w t) =>
    serStr k ++ ':' :: ' ' :: v.ser ++ ',' :: ' ' :: (JObj.cons k2 w t).serMembers
end

/-! ## JSON parsing (`json.loads`) -/

/-- JSON inter-token whitespace. -/
def isJsonWs (c : Char) : Bool :=
  c = ' ' || c = '\t' || c = '\n' || c = '\r'

/-- Skip inter-token whitespace. -/
def skipWs (s : List Char) : List Char := s.dropWhile isJsonWs

/-- Unescape one character after a backslash inside a JSON string. -/
def unescChar (c : Char) : Option Char :=
  if c = '"' then some '"'
  else if c = '\\' then some '\\'
  else if c = '/' then some '/'
  else if c = 'n' then some '\n'
  else if c = 'r' then some '\r'
  else if c = 't' then some '\t'
  else none

/-- Parse the body of a JSON string after the opening quote; returns the
decoded characters and the input after the closing quote. -/
def parseStrAux : List Char → Option (List Char × List Char)
  | [] => none
  | c :: rest =>
    if c = '"' then some ([], rest)
    else if c = '\\' then
      match rest with
      | [] => none
      | d :: rest2 =>
        match unescChar d with
        | none => none
        | some e =>
          match parseStrAux rest2 with
          | some (s, r) => some (e :: s, r)
          | none => none
    else
      match parseStrAux rest with
      | some (s, r) => some (c :: s, r)
      | none => none

/-- Numeric value of a digit character. -/
def digToNat (c : Char) : Nat := c.toNat - 48

/-- Consume a maximal run of digits, accumulating their value. -/
def parseDigits (acc : Nat) : List Char → Nat × List Char
  | [] => (acc, [])
  | c :: rest =>
    if c.isDigit then parseDigits (acc * 10 + digToNat c) rest
    else (acc, c :: rest)

/-- Parse an (integer) JSON numeral at the head of the input. -/
def parseNum : List Char → Option (Int × List Char)
  | [] => none
  | c :: rest =>
    if c = '-' then
      match rest with
      | [] => none
      | d :: rest2 =>
        if d.isDigit then
          let p := parseDigits (digToNat d) rest2
          some (-(p.1 : Int), p.2)
        else none
    else if c.isDigit then
      let p := parseDigits (digToNat c) rest
      some ((p.1 : Int), p.2)
    else none

/-- Parsing mode: one value, the members of an object (after at least one
member is known to follow), or the elements of an array. -/
inductive PMode : Type where
  | value : PMode
  | members : PMode
  | elems : PMode

/-- Result of a `parseP` call, per mode. -/
inductive PRes : Type where
  | v (x : JVal) : PRes
  | o (x : JObj) : PRes
  | a (x : JArr) : PRes

/-- Recursive-descent JSON parser.  The fuel argument only forces
structural recursion; `jsonParse` supplies `length + 1`, which bounds the
recursion depth because every recursive call follows the consumption of at
least one input character. -/
def parseP : Nat → PMode → List Char → Option (PRes × List Char)
  | 0, _, _ => none
  | fuel + 1, .value, s =>
    match skipWs s with
    | [] => none
    | c :: rest =>
      if c = '{' then
        match skipWs rest with
        | [] => none
        | c2 :: r2 =>
          if c2 = '}' then some (.v (.obj .nil), r2)
          else
            match parseP fuel .members (c2 :: r2) with
            | some (.o o, r) => some (.v (.obj o), r)
            | _ => none
      else if c = '[' then
        match skipWs rest with
        | [] => none
        | c2 :: r2 =>
          if c2 = ']' then some (.v (.arr .nil), r2)
          else
            match parseP fuel .elems (c2 :: r2) with
            | some (.a a, r) => some (.v (.arr a), r)
            | _ => none
      else if c = '"' then
        match parseStrAux rest with
        | some (s2, r) => some (.v (.str s2), r)
        | none => none
      else if c = 't' then
        if (cs "rue").isPrefixOf rest then some (.v (.bool true), rest.drop 3) else none
      else if c = 'f' then
        if (cs "alse").isPrefixOf rest then some (.v (.bool false), rest.drop 4) else none
      else if c = 'n' then
        if (cs "ull").isPrefixOf rest then some (.v .null, rest.drop 3) else none
      else
        match parseNum (c :: rest) with
        | some (n, r) => some (.v (.num n), r)
        | none => none
  | fuel + 1, .members, s =>
    match skipWs s with
    | [] => none
    | c :: rest =>
      if c = '"' then
        match parseStrAux rest with
        | some (k, r1) =>
          (match skipWs r1 with
           | [] => none
           | c3 :: r3 =>
             if c3 = ':' then
               match parseP fuel .value r3 with
               | some (.v v, r5) =>
                 (match skipWs r5 with
                  | [] => none
                  | c6 :: r6 =>
                    if c6 = ',' then
                      match parseP fuel .members r6 with
                      | some (.o t, r7) => some (.o (.cons k v t), r7)
                      | _ => none
                    else if c6 = '}' then some (.o (.cons k v .nil), r6)
                    else none)
               | _ => none
             else none)
        | none => none
      else none
  | fuel + 1, .elems, s =>
    match parseP fuel .value s with
    | some (.v v, r) =>
      (match skipWs r with
       | [] => none
       | c2 :: r2 =>
         if c2 = ',' then
           match parseP fuel .elems r2 with
           | some (.a t, r3) => some (.a (.cons v t), r3)
           | _ => none
         else if c2 = ']' then some (.a (.cons v .nil), r2)
         else none)
    | _ => none

/-- `json.loads`: parse one JSON value, allowing surrounding whitespace;
`none` models `json.JSONDecodeError`. -/
def jsonParse (s : List Char) : Option JVal :=
  match parseP (s.length + 1) .value s with
  | some (.v v, rest) => if (skipWs rest).isEmpty then some v else none
  | _ => none

/-- Value of a big-endian digit run, continuing from `acc`. -/
def valDigits (L : List Char) (acc : Nat) : Nat :=
  L.foldl (fun a c => a * 10 + digToNat c) acc

mutual
/-- Fuel sufficient for `parseP` to parse the serialization of a value. -/
def JVal.fsize : JVal → Nat
  | .null => 1
  | .bool _ => 1
  | .num _ => 1
  | .str _ => 1
  | .arr a => a.fsize + 1
  | .obj o => o.fsize + 1
/-- Fuel sufficient for the element list of an array. -/
def JArr.fsize : JArr → Nat
  | .nil => 0
  | .cons v t => v.fsize + t.fsize + 1
/-- Fuel sufficient for the member list of an object. -/
def JObj.fsize : JObj → Nat
  | .nil => 0
  | .cons _ v t => v.fsize + t.fsize + 1
end

/-! ## Retry policy (`with_retry`, app.py lines 26-53)

An operation is modelled as a function from the attempt index to either a
value or a raised exception message; the `random.uniform(0, 1)` jitter is a
parameter.  The result triple is (outcome, total time slept, number of
times the operation was invoked). -/

/-- Rate-limit classification of an exception message
(`'429' in str(e).lower() or 'quota exceeded' in ... or 'rate_limit' in ...`). -/
def isRateLimitError (e : List Char) : Bool :=
  containsSub (cs "429") (lowerStr e) || containsSub (cs "quota exceeded") (lowerStr e) ||
    containsSub (cs "rate_limit") (lowerStr e)

/-- Outcome of a `with_retry`-wrapped call: the wrapped value, the
rate-limited sentinel dict, a re-raised exception, or the `None` returned
when the loop is entered zero times. -/
inductive RetryOutcome (α : Type) : Type where
  | success (a : α) : RetryOutcome α
  | rateLimited : RetryOutcome α
  | raised (e : List Char) : RetryOutcome α
  | noneExhausted : RetryOutcome α

/-- The `for attempt in range(max_retries)` loop of `with_retry`.
`remaining` counts the loop iterations left (`maxRetries - attempt`). -/
def withRetryGo {α : Type} (op : Nat → Except (List Char) α) (jitter : Nat → ℚ)
    (maxRetries : Nat) (backoffFactor : ℚ) : Nat → Nat → RetryOutcome α × ℚ × Nat
  | 0, _ => (.noneExhausted, 0, 0)
  | remaining + 1, attempt =>
    match op attempt with
    | .ok a => (.success a, 0, 1)
    | .error e =>
      if isRateLimitError e then
        if attempt < maxRetries - 1 then
          let r := withRetryGo op jitter maxRetries backoffFactor remaining (attempt + 1)
          (r.1, backoffFactor ^ attempt + jitter attempt + r.2.1, r.2.2 + 1)
        else (.rateLimited, 0, 1)
      else (.raised e, 0, 1)

/-- `with_retry(max_retries=3)` with its default `backoff_factor=1.5`, as
applied to `call_gemini_with_retry`. -/
def withRetry {α : Type} (op : Nat → Except (List Char) α) (jitter : Nat → ℚ) :
    RetryOutcome α × ℚ × Nat :=
  withRetryGo op jitter 3 (3 / 2) 3 0

/-! ## Router data model (`process_gemini_request_enhanced`, fallback) -/

/-- Exceptions raised inside the router's outer `try` and caught by its
`except Exception` handler. -/
inductive PyErr : Type where
  | attrStripOnDict : PyErr
  | attrStripOnNone : PyErr
  | indexLinesEmpty : PyErr
  | attrGetOnNonDict : PyErr
  | geminiRaised (e : List Char) : PyErr

/-- Exceptions inside the tool-dispatch `try` (caught at line 599). -/
inductive ExecErr : Type where
  | backendRaised (msg : List Char) : ExecErr
  | taskFieldNotDict : ExecErr

/-- Structure of the `response_text` built when normalizing a backend
reply (app.py lines 582-590): which branch was taken and which payloads
feed the f-strings. -/
inductive NormalizedText : Type where
  | errMsg (v : JVal) : NormalizedText
  | okMsg (m : JVal) : NormalizedText
  | okMsgWithTask (m title priority completed : JVal) : NormalizedText
  | okGeneric : NormalizedText

/-- Structure of every `response` string the router can produce, one
constructor per literal/f-string in the source. -/
inductive RespVal : Type where
  | fbListTasks : RespVal
  | fbErrListing (e : List Char) : RespVal
  | fbTaskCreated (title : List Char) : RespVal
  | fbErrCreating (e : List Char) : RespVal
  | fbStats : RespVal
  | fbErrStats (e : List Char) : RespVal
  | fbAskTitle : RespVal
  | fbHelp : RespVal
  | parseFailure : RespVal
  | toolNotAvailable (t : JVal) : RespVal
  | toolExecFailed (e : ExecErr) : RespVal
  | requestFailed (e : PyErr) : RespVal
  | normalized (n : NormalizedText) : RespVal

/-- The dict returned by one routing call: its `action` tag plus payloads.
`passthrough` is the `return parsed` of non-tool_call actions. -/
inductive RouterResult : Type where
  | chat (r : RespVal) : RouterResult
  | toolResult (r : RespVal) (raw : JObj) : RouterResult
  | errorResult (r : RespVal) : RouterResult
  | passthrough (v : JVal) : RouterResult

/-- Does the result dict carry `action: "chat"`? -/
def RouterResult.isChatKind : RouterResult → Bool
  | .chat _ => true
  | _ => false

/-- Does the result dict carry `action: "error"`? -/
def RouterResult.isErrorKind : RouterResult → Bool
  | .errorResult _ => true
  | _ => false

/-- The backend (`mcp_client.call_tool`): maps a tool name value and a
parameter value to a JSON reply, or raises. -/
def Backend : Type := JVal → JVal → Except (List Char) JObj

/-! ## Fallback matcher (`process_fallback_request`, app.py lines 61-118) -/

/-- Rule 1 guard: a list word and "task" occur in the lowercased input. -/
def listRuleMatches (low : List Char) : Bool :=
  containsAny [cs "list", cs "show", cs "display", cs "all"] low &&
    containsSub (cs "task") low

/-- Rule 2 guard: a create word and "task" occur in the lowercased input. -/
def createRuleMatches (low : List Char) : Bool :=
  containsAny [cs "create", cs "add", cs "new"] low && containsSub (cs "task") low

/-- Rule 3 guard: a stats word occurs in the lowercased input. -/
def statsRuleMatches (low : List Char) : Bool :=
  containsAny [cs "stats", cs "statistics", cs "summary"] low

/-- The extracted title of the fallback create rule:
`user_input.replace('create task', '').replace('add task', '').replace('new task', '').strip()`
(the replacements run on the original, case-preserved input). -/
def fallbackTitle (input : List Char) : List Char :=
  pyStrip (pyReplace (cs "new task") (pyReplace (cs "add task")
    (pyReplace (cs "create task") input)))

/-- The `{'title': title, 'priority': 'medium'}` parameter dict. -/
def createParams (title : List Char) : JVal :=
  .obj (.cons (cs "title") (.str title) (.cons (cs "priority") (.str (cs "medium")) .nil))

/-- `process_fallback_request`: ordered keyword rules, first match wins.
The second component lists the backend calls made (tool name, parameters). -/
def processFallback (input : List Char) (bk : Backend) :
    RouterResult × List (JVal × JVal) :=
  let low := lowerStr input
  if listRuleMatches low then
    match bk (.str (cs "list_tasks")) (.obj .nil) with
    | .ok r => (.toolResult .fbListTasks r, [(.str (cs "list_tasks"), .obj .nil)])
    | .error e => (.errorResult (.fbErrListing e), [(.str (cs "list_tasks"), .obj .nil)])
  else if createRuleMatches low then
    let title := fallbackTitle input
    if title.isEmpty then (.chat .fbAskTitle, [])
    else
      match bk (.str (cs "create_task")) (createParams title) with
      | .ok r => (.toolResult (.fbTaskCreated title) r,
          [(.str (cs "create_task"), createParams title)])
      | .error e => (.errorResult (.fbErrCreating e),
          [(.str (cs "create_task"), createParams title)])
  else if statsRuleMatches low then
    match bk (.str (cs "get_task_stats")) (.obj .nil) with
    | .ok r => (.toolResult .fbStats r, [(.str (cs "get_task_stats"), .obj .nil)])
    | .error e => (.errorResult (.fbErrStats e), [(.str (cs "get_task_stats"), .obj .nil)])
  else (.chat .fbHelp, [])

/-! ## Response extractor (app.py lines 537-551) -/

/-- The JSON cleanup logic applied to the model's text: fenced-with-tag,
bare-fenced and plain shapes.  `Except.error` models an uncaught exception
escaping to the outer handler (`lines[-1]` on an empty list). -/
def extractCandidate (analysis : List Char) : Except PyErr (List Char) :=
  let cleaned := pyStrip analysis
  if (cs "```json").isPrefixOf cleaned then
    let startIdx : Int := pyFind '{' cleaned
    let endIdx : Int := pyRFind '}' cleaned + 1
    if startIdx ≠ -1 ∧ endIdx ≠ -1 then .ok (pySlice startIdx endIdx cleaned)
    else .ok cleaned
  else if (cs "```").isPrefixOf cleaned then
    let lines := pySplit '\n' cleaned
    let lines1 := match lines with
      | [] => []
      | l0 :: restL => if (cs "```").isPrefixOf l0 then restL else lines
    match lines1.getLast? with
    | none => .error .indexLinesEmpty
    | some llast =>
      let lines2 := if pyStrip llast = cs "```" then lines1.dropLast else lines1
      .ok (pyJoin ['\n'] lines2)
  else .ok cleaned

/-! ## Tool invocation and reply normalization (app.py lines 564-601) -/

/-- Normalization of a backend JSON reply into `response_text`
(app.py lines 582-590).  `Except.error` is the `AttributeError` raised by
`task.get(...)` when the `task` value is not a dict. -/
def normalizeToolReply (reply : JObj) : Except Unit NormalizedText :=
  if reply.hasKey (cs "error") then .ok (.errMsg (reply.getD (cs "error") .null))
  else if pyTruthy (reply.getD (cs "message") .null) then
    if reply.hasKey (cs "task") then
      match reply.getD (cs "task") .null with
      | .obj t => .ok (.okMsgWithTask (reply.getD (cs "message") .null)
          (t.getD (cs "title") .null) (t.getD (cs "priority") .null)
          (t.getD (cs "completed") .null))
      | _ => .error ()
    else .ok (.okMsg (reply.getD (cs "message") .null))
  else .ok .okGeneric

/-- The dispatch `try` block (lines 579-601): call the backend, normalize
the reply; exceptions become the `Failed to execute tool` error dict. -/
def dispatchToolCall (toolName params : JVal) (bk : Backend) :
    RouterResult × List (JVal × JVal) :=
  match bk toolName params with
  | .error e => (.errorResult (.toolExecFailed (.backendRaised e)), [(toolName, params)])
  | .ok reply =>
    match normalizeToolReply reply with
    | .ok n => (.toolResult (.normalized n) reply, [(toolName, params)])
    | .error _ => (.errorResult (.toolExecFailed .taskFieldNotDict), [(toolName, params)])

/-- Python `tool_name not in available_tools` (negated): the proposed tool
value equals one of the discovered name strings. -/
def toolNameMem (t : JVal) (tools : List (List Char)) : Bool :=
  match t with
  | .str s => tools.any (fun n => n == s)
  | _ => false

/-- Python `parsed.get("action") == "tool_call"`. -/
def isToolCallAction (v : JVal) : Bool :=
  match v with
  | .str s => s == cs "tool_call"
  | _ => false

/-- The `action == "tool_call"` branch (lines 564-601): dynamic-mode
membership validation, then dispatch. -/
def handleToolCall (useDynamic : Bool) (tools : List (List Char)) (o : JObj)
    (bk : Backend) : RouterResult × List (JVal × JVal) :=
  let toolName := o.getD (cs "tool") .null
  let params := o.getD (cs "parameters") (.obj .nil)
  if useDynamic && !(toolNameMem toolName tools) then
    (.errorResult (.toolNotAvailable toolName), [])
  else dispatchToolCall toolName params bk

/-- Handling of the parsed JSON value: tool_call dispatch, pass-through of
other actions, and the `AttributeError` of `.get` on a non-dict. -/
def handleParsed (useDynamic : Bool) (tools : List (List Char)) (parsed : JVal)
    (bk : Backend) : RouterResult × List (JVal × JVal) :=
  match parsed with
  | .obj o =>
    if isToolCallAction (o.getD (cs "action") .null) then handleToolCall useDynamic tools o bk
    else (.passthrough parsed, [])
  | _ => (.errorResult (.requestFailed .attrGetOnNonDict), [])

/-! ## Router (`process_gemini_request_enhanced`, app.py lines 482-608)

`gemini` is the outcome of `call_gemini_with_retry` on the built prompt;
`tools` stands for `get_tools_info()['tools']`, the discovered name list
used by dynamic-mode validation.  The rate-limited sentinel dict and the
`None` loop fall-through both make `analysis.strip()` raise
`AttributeError`, caught by the outer handler (line 606). -/
def processRequest (useFallback : Bool) (input : List Char) (useDynamic : Bool)
    (tools : List (List Char)) (gemini : RetryOutcome (List Char)) (bk : Backend) :
    RouterResult × List (JVal × JVal) :=
  if useFallback then processFallback input bk
  else
    match gemini with
    | .success text =>
      match extractCandidate text with
      | .error pe => (.errorResult (.requestFailed pe), [])
      | .ok cand =>
        match jsonParse cand with
        | none => (.errorResult .parseFailure, [])
        | some parsed => handleParsed useDynamic tools parsed bk
    | .rateLimited => (.errorResult (.requestFailed .attrStripOnDict), [])
    | .raised e => (.errorResult (.requestFailed (.geminiRaised e)), [])
    | .noneExhausted => (.errorResult (.requestFailed .attrStripOnNone), [])

/-! ## Schema cache (`EnhancedMCPClient`, app.py lines 120-285)

Time is passed explicitly (`time.time()` calls); a discovery fetch is
modelled by its result: `some reply` on HTTP success, `none` when the
request failed (connection error, timeout, bad response). -/

/-- The mutable cache fields of `EnhancedMCPClient`. -/
structure CacheState : Type where
  toolsCache : Option JObj
  cacheTimestamp : ℚ
  cacheTtl : ℚ

/-- Python truthiness of `self._tools_cache`. -/
def cacheTruthy : Option JObj → Bool
  | none => false
  | some o => pyTruthy (.obj o)

/-- `get_dynamic_tools(force_refresh)` at time `now`: returns the tools
data, the updated state, and whether a fetch was attempted. -/
def getDynamicTools (st : CacheState) (forceRefresh : Bool) (now : ℚ)
    (fetch : Option JObj) : Option JObj × CacheState × Bool :=
  if !forceRefresh && cacheTruthy st.toolsCache &&
      decide (now - st.cacheTimestamp < st.cacheTtl) then
    (st.toolsCache, st, false)
  else
    match fetch with
    | some d => (some d, { st with toolsCache := some d, cacheTimestamp := now }, true)
    | none => (none, st, true)

/-- `'fresh' if cache_age < 60 else 'cached' if cache_age < 300 else 'stale'`
(line 276; the literals 60 and 300 are hardcoded). -/
def cacheStatusOf (age : ℚ) : List Char :=
  if age < 60 then cs "fresh" else if age < 300 then cs "cached" else cs "stale"

/-- The fields of the `get_tools_info` result that the claims concern;
the rendering fields (count, name list, formatted time) are omitted. -/
structure ToolsInfo : Type where
  available : Bool
  cacheStatus : List Char

/-- `get_tools_info()`: a non-forced `get_dynamic_tools` call at `now1`,
then staleness derivation at `now2` (the second `time.time()` call). -/
def getToolsInfo (st : CacheState) (now1 now2 : ℚ) (fetch : Option JObj) :
    ToolsInfo × CacheState × Bool :=
  let r := getDynamicTools st false now1 fetch
  match r.1 with
  | none => (⟨false, cs "failed"⟩, r.2.1, r.2.2)
  | some d =>
    if pyTruthy (.obj d) then
      (⟨true, cacheStatusOf (now2 - r.2.1.cacheTimestamp)⟩, r.2.1, r.2.2)
    else (⟨false, cs "failed"⟩, r.2.1, r.2.2)

/-- The spec's fence with a "json" language tag (§8: `fence("json", O)`). -/
def specFenceJson (s : List Char) : List Char := cs "```json\n" ++ (s ++ cs "\n```")

/-- The spec's bare fence (§8: `fence("", O)`). -/
def specFenceBare (s : List Char) : List Char := cs "```\n" ++ (s ++ cs "\n```")

/-! ## Concrete instances used by witnesses and counterexamples -/

/-- A backend that accepts every call and replies with an empty dict. -/
def bkOk : Backend := fun _ _ => .ok .nil

/-- A backend whose reply carries a message. -/
def bkMsg : Backend := fun _ _ => .ok (.cons (cs "message") (.str (cs "done")) .nil)

/-- An operation failing rate-limit-classified on every attempt. -/
def op429 : Nat → Except (List Char) (List Char) := fun _ => .error (cs "429 quota exceeded")

/-- An operation failing rate-limit-classified once, then succeeding. -/
def opOnce : Nat → Except (List Char) Nat :=
  fun i => if i = 0 then .error (cs "429") else .ok 7

/-- An operation failing with a non-rate-limit error. -/
def opBoom : Nat → Except (List Char) Nat := fun _ => .error (cs "boom")

/-- Zero jitter. -/
def zeroJitter : Nat → ℚ := fun _ => 0

/-- The title string sent in a single dispatched call (projection used to
state counterexamples without equality on `JVal`). -/
def callTitle (calls : List (JVal × JVal)) : Option (List Char) :=
  match calls with
  | [(_, .obj o)] =>
    match o.get? (cs "title") with
    | some (.str t) => some t
    | _ => none
  | _ => none

/-- Is a normalization result the message-carrying success shape? -/
def isOkMsgKind : Except Unit NormalizedText → Bool
  | .ok (.okMsg _) => true
  | _ => false

/-! ## Theorems -/
/-! ## Round trip: parsing recovers every serialized value -/

/-- A digit character differs from any non-digit character. -/
theorem digit_ne (c x : Char) (h : c.isDigit = true) (hx : x.isDigit = false) : c ≠ x := by
  intro he; subst he; rw [h] at hx; cases hx

/-- A digit character is not JSON whitespace. -/
theorem digit_not_ws (c : Char) (h : c.isDigit = true) : isJsonWs c = false := by
  cases hw : isJsonWs c
  · rfl
  · exfalso
    simp only [isJsonWs, Bool.or_eq_true, decide_eq_true_eq] at hw
    rcases hw with ((rfl | rfl) | rfl) | rfl <;> exact absurd h (by decide)

theorem digitChar_isDigit (m : Nat) (h : m < 10) : (digitChar m).isDigit = true := by
  interval_cases m <;> decide

theorem digToNat_digitChar (m : Nat) (h : m < 10) : digToNat (digitChar m) = m := by
  interval_cases m <;> decide

theorem serNatGo_append (fuel : Nat) : ∀ n acc, serNatGo fuel n acc = serNatGo fuel n [] ++ acc := by
  induction fuel with
  | zero => intro n acc; simp [serNatGo]
  | succ f ih =>
    intro n acc
    by_cases h : n = 0
    · simp [serNatGo, h]
    · rw [serNatGo, serNatGo, if_neg h, if_neg h,
        ih (n / 10) (digitChar (n % 10) :: acc), ih (n / 10) [digitChar (n % 10)]]
      simp

theorem serNatGo_digits (fuel : Nat) :
    ∀ n acc, (∀ c ∈ acc, c.isDigit = true) → ∀ c ∈ serNatGo fuel n acc, c.isDigit = true := by
  induction fuel with
  | zero => intro n acc hacc; simpa [serNatGo] using hacc
  | succ f ih =>
    intro n acc hacc
    by_cases h : n = 0
    · simpa [serNatGo, h] using hacc
    · rw [serNatGo, if_neg h]
      refine ih (n / 10) _ ?_
      intro c hc
      rcases List.mem_cons.mp hc with rfl | hc2
      · exact digitChar_isDigit _ (Nat.mod_lt _ (by norm_num))
      · exact hacc c hc2

theorem serNat_digits (n : Nat) : ∀ c ∈ serNat n, c.isDigit = true := by
  unfold serNat; split
  · intro c hc; simp only [List.mem_singleton] at hc; subst hc; decide
  · exact serNatGo_digits n n [] (by simp)

theorem serNat_ne_nil (n : Nat) : serNat n ≠ [] := by
  unfold serNat; split
  · simp
  · rename_i h
    cases n with
    | zero => exact absurd rfl h
    | succ f =>
      rw [serNatGo, if_neg h, serNatGo_append]
      simp

theorem parseDigits_spec (L : List Char) : ∀ acc rest, (∀ c ∈ L, c.isDigit = true) →
    (∀ c ∈ rest.head?, c.isDigit = false) →
    parseDigits acc (L ++ rest) = (valDigits L acc, rest) := by
  induction L with
  | nil =>
    intro acc rest _ hr
    cases rest with
    | nil => simp [parseDigits, valDigits]
    | cons c r => simp [parseDigits, valDigits, hr c rfl]
  | cons c L ih =>
    intro acc rest hL hr
    have hc : c.isDigit = true := hL c (by simp)
    simp only [List.cons_append, parseDigits, hc, if_pos, List.append_eq]
    rw [ih _ rest (fun d hd => hL d (by simp [hd])) hr]
    simp [valDigits]

theorem valDigits_append (L1 L2 : List Char) (acc : Nat) :
    valDigits (L1 ++ L2) acc = valDigits L2 (valDigits L1 acc) := by
  simp [valDigits, List.foldl_append]

theorem valDigits_serNatGo (fuel : Nat) : ∀ n acc, n ≤ fuel →
    valDigits (serNatGo fuel n []) acc = acc * 10 ^ (serNatGo fuel n []).length + n := by
  induction fuel with
  | zero =>
    intro n acc h
    interval_cases n
    simp [serNatGo, valDigits]
  | succ f ih =>
    intro n acc h
    by_cases h0 : n = 0
    · simp [serNatGo, h0, valDigits]
    · rw [serNatGo, if_neg h0, serNatGo_append]
      have hdiv : n / 10 ≤ f := by
        have := Nat.div_lt_self (Nat.pos_of_ne_zero h0) (by norm_num : 1 < 10)
        omega
      rw [valDigits_append, ih (n / 10) acc hdiv]
      have hm : digToNat (digitChar (n % 10)) = n % 10 :=
        digToNat_digitChar _ (Nat.mod_lt _ (by norm_num))
      simp only [valDigits, List.foldl_cons, List.foldl_nil, List.length_append,
        List.length_singleton, hm]
      have : (10 : Nat) ^ ((serNatGo f (n / 10) []).length + 1) =
          10 ^ (serNatGo f (n / 10) []).length * 10 := by ring
      rw [this]
      have hnm := Nat.div_add_mod n 10
      ring_nf
      omega

theorem valDigits_serNat (n : Nat) : valDigits (serNat n) 0 = n := by
  unfold serNat; split
  · rename_i h; subst h; decide
  · rw [valDigits_serNatGo n n 0 le_rfl]; simp

theorem serNat_shape (n : Nat) :
    ∃ d ds, serNat n = d :: ds ∧ d.isDigit = true ∧ ∀ c ∈ ds, c.isDigit = true := by
  cases hs : serNat n with
  | nil => exact absurd hs (serNat_ne_nil n)
  | cons d ds =>
    have hall := serNat_digits n
    rw [hs] at hall
    exact ⟨d, ds, rfl, hall d (by simp), fun c hc => hall c (by simp [hc])⟩

theorem valDigits_cons (d : Char) (ds : List Char) :
    valDigits (d :: ds) 0 = valDigits ds (digToNat d) := by
  simp [valDigits]

theorem parseNum_serInt (i : Int) (rest : List Char)
    (hr : ∀ c ∈ rest.head?, c.isDigit = false) :
    parseNum (serInt i ++ rest) = some (i, rest) := by
  by_cases hneg : i < 0
  · obtain ⟨d, ds, hs, hd, hds⟩ := serNat_shape i.natAbs
    have hv : valDigits (serNat i.natAbs) 0 = i.natAbs := valDigits_serNat _
    rw [hs, valDigits_cons] at hv
    have hint : -((i.natAbs : Nat) : Int) = i := by omega
    rw [serInt, if_pos hneg, hs]
    rw [List.cons_append, List.cons_append, parseNum.eq_def]
    simp [hd, parseDigits_spec ds (digToNat d) rest hds hr, hv, hint]
    rw [abs_of_neg hneg, neg_neg]
  · obtain ⟨d, ds, hs, hd, hds⟩ := serNat_shape i.toNat
    have hv : valDigits (serNat i.toNat) 0 = i.toNat := valDigits_serNat _
    rw [hs, valDigits_cons] at hv
    have hdm : ¬(d = '-') := digit_ne d '-' hd (by decide)
    have hint : ((i.toNat : Nat) : Int) = i := by omega
    rw [serInt, if_neg hneg, hs, List.cons_append, parseNum.eq_def]
    simp [hdm, hd, parseDigits_spec ds (digToNat d) rest hds hr, hv, hint]

theorem parseStrAux_ser (s : List Char) :
    ∀ rest, parseStrAux (escList s ++ ('"' :: rest)) = some (s, rest) := by
  induction s with
  | nil =>
    intro rest
    rw [escList, List.nil_append, parseStrAux.eq_def]
    simp
  | cons c s ih =>
    intro rest
    rw [escList, List.append_assoc]
    by_cases h1 : c = '"'
    · subst h1
      rw [show escChar '"' = ['\\', '"'] from rfl, List.cons_append, List.cons_append,
        List.nil_append, parseStrAux.eq_def]
      simp [unescChar, ih rest]
    · by_cases h2 : c = '\\'
      · subst h2
        rw [show escChar '\\' = ['\\', '\\'] from rfl, List.cons_append, List.cons_append,
          List.nil_append, parseStrAux.eq_def]
        simp [unescChar, ih rest]
      · by_cases h3 : c = '\n'
        · subst h3
          rw [show escChar '\n' = ['\\', 'n'] from rfl, List.cons_append, List.cons_append,
            List.nil_append, parseStrAux.eq_def]
          simp [unescChar, ih rest]
        · by_cases h4 : c = '\r'
          · subst h4
            rw [show escChar '\r' = ['\\', 'r'] from rfl, List.cons_append, List.cons_append,
              List.nil_append, parseStrAux.eq_def]
            simp [unescChar, ih rest]
          · by_cases h5 : c = '\t'
            · subst h5
              rw [show escChar '\t' = ['\\', 't'] from rfl, List.cons_append, List.cons_append,
                List.nil_append, parseStrAux.eq_def]
              simp [unescChar, ih rest]
            · rw [show escChar c = [c] from by simp [escChar, h1, h2, h3, h4, h5],
                List.cons_append, List.nil_append, parseStrAux.eq_def]
              simp [h1, h2, ih rest]

theorem skipWs_cons (c : Char) (s : List Char) (h : isJsonWs c = false) :
    skipWs (c :: s) = c :: s := by
  simp [skipWs, List.dropWhile_cons, h]

theorem skipWs_space (s : List Char) : skipWs (' ' :: s) = skipWs s := by
  simp [skipWs, List.dropWhile_cons, show isJsonWs ' ' = true from rfl]

theorem parseP_value_ws (fuel : Nat) (s : List Char) :
    parseP fuel .value (' ' :: s) = parseP fuel .value s := by
  cases fuel with
  | zero => rfl
  | succ f =>
    conv_lhs => rw [parseP.eq_def]
    conv_rhs => rw [parseP.eq_def]
    simp only [skipWs_space]

theorem parseP_members_ws (fuel : Nat) (s : List Char) :
    parseP fuel .members (' ' :: s) = parseP fuel .members s := by
  cases fuel with
  | zero => rfl
  | succ f =>
    conv_lhs => rw [parseP.eq_def]
    conv_rhs => rw [parseP.eq_def]
    simp only [skipWs_space]

theorem parseP_elems_ws (fuel : Nat) (s : List Char) :
    parseP fuel .elems (' ' :: s) = parseP fuel .elems s := by
  cases fuel with
  | zero => rfl
  | succ f =>
    conv_lhs => rw [parseP.eq_def]
    conv_rhs => rw [parseP.eq_def]
    simp only [parseP_value_ws]

theorem JVal.fsize_pos (v : JVal) : 1 ≤ v.fsize := by
  cases v <;> simp [JVal.fsize]

theorem ser_head_shape (v : JVal) :
    ∃ c r, v.ser = c :: r ∧ isJsonWs c = false ∧ ¬(c = ']') ∧ ¬(c = '}') := by
  cases v with
  | null => exact ⟨'n', cs "ull", rfl, by decide, by decide, by decide⟩
  | bool b =>
    cases b with
    | true => exact ⟨'t', cs "rue", rfl, by decide, by decide, by decide⟩
    | false => exact ⟨'f', cs "alse", rfl, by decide, by decide, by decide⟩
  | num i =>
    by_cases hneg : i < 0
    · exact ⟨'-', serNat i.natAbs, by rw [show (JVal.num i).ser = serInt i from rfl, serInt,
        if_pos hneg], by decide, by decide, by decide⟩
    · obtain ⟨d, ds, hds, hd, _⟩ := serNat_shape i.toNat
      exact ⟨d, ds, by rw [show (JVal.num i).ser = serInt i from rfl, serInt, if_neg hneg, hds],
        digit_not_ws d hd, digit_ne d ']' hd (by decide), digit_ne d '}' hd (by decide)⟩
  | str s => exact ⟨'"', escList s ++ ['"'], rfl, by decide, by decide, by decide⟩
  | arr a => exact ⟨'[', a.serElems ++ [']'], rfl, by decide, by decide, by decide⟩
  | obj o => exact ⟨'{', o.serMembers ++ ['}'], rfl, by decide, by decide, by decide⟩

theorem serElems_cons_shape (v : JVal) (t : JArr) :
    ∃ c r, (JArr.cons v t).serElems = c :: r ∧ isJsonWs c = false ∧ ¬(c = ']') := by
  obtain ⟨c, r, hs, h1, h2, _⟩ := ser_head_shape v
  cases t with
  | nil => exact ⟨c, r, by rw [show (JArr.cons v .nil).serElems = v.ser from rfl, hs], h1, h2⟩
  | cons w t2 =>
    exact ⟨c, r ++ ',' :: ' ' :: (JArr.cons w t2).serElems,
      by rw [show (JArr.cons v (.cons w t2)).serElems =
          v.ser ++ ',' :: ' ' :: (JArr.cons w t2).serElems from rfl, hs, List.cons_append],
      h1, h2⟩

theorem serMembers_cons_shape (k : List Char) (v : JVal) (t : JObj) :
    ∃ r, (JObj.cons k v t).serMembers = '"' :: r := by
  cases t with
  | nil =>
    exact ⟨escList k ++ ['"'] ++ ':' :: ' ' :: v.ser,
      by rw [show (JObj.cons k v .nil).serMembers = serStr k ++ ':' :: ' ' :: v.ser from rfl,
        serStr, List.cons_append]⟩
  | cons k2 w t2 =>
    exact ⟨escList k ++ ['"'] ++ ':' :: ' ' :: v.ser ++ ',' :: ' ' ::
        (JObj.cons k2 w t2).serMembers,
      by rw [show (JObj.cons k v (.cons k2 w t2)).serMembers =
          serStr k ++ ':' :: ' ' :: v.ser ++ ',' :: ' ' :: (JObj.cons k2 w t2).serMembers
          from rfl, serStr, List.cons_append, List.cons_append]⟩

/-- The value parser at a head character that starts no other token falls
through to numeral parsing. -/
theorem parseP_value_via_num (f : Nat) (c : Char) (r2 : List Char)
    (hws : isJsonWs c = false) (h1 : ¬(c = '{')) (h2 : ¬(c = '[')) (h3 : ¬(c = '"'))
    (h4 : ¬(c = 't')) (h5 : ¬(c = 'f')) (h6 : ¬(c = 'n')) :
    parseP (f + 1) .value (c :: r2) =
      match parseNum (c :: r2) with
      | some (n, r) => some (.v (.num n), r)
      | none => none := by
  rw [parseP.eq_def]
  simp only [skipWs_cons _ _ hws, h1, h2, h3, h4, h5, h6, if_false, ite_false]

mutual
/-- Parsing recovers any serialized value, leaving the remainder intact
(provided the remainder does not begin with a digit). -/
theorem parseSer_val (v : JVal) (fuel : Nat) (rest : List Char)
    (hf : v.fsize ≤ fuel) (hr : ∀ c ∈ rest.head?, c.isDigit = false) :
    parseP fuel .value (v.ser ++ rest) = some (.v v, rest) := by
  obtain ⟨f, rfl⟩ : ∃ f, fuel = f + 1 := ⟨fuel - 1, by have := v.fsize_pos; omega⟩
  cases v with
  | null =>
    rw [show (JVal.null).ser = ['n', 'u', 'l', 'l'] from rfl, parseP.eq_def]
    simp [cs, skipWs, List.dropWhile_cons, isJsonWs, List.isPrefixOf]
  | bool b =>
    cases b with
    | true =>
      rw [show (JVal.bool true).ser = ['t', 'r', 'u', 'e'] from rfl, parseP.eq_def]
      simp [cs, skipWs, List.dropWhile_cons, isJsonWs, List.isPrefixOf]
    | false =>
      rw [show (JVal.bool false).ser = ['f', 'a', 'l', 's', 'e'] from rfl, parseP.eq_def]
      simp [cs, skipWs, List.dropWhile_cons, isJsonWs, List.isPrefixOf]
  | num i =>
    have hp := parseNum_serInt i rest hr
    obtain ⟨c, r, hs, hws, hc1, hc2, hc3, hc4, hc5, hc6⟩ :
        ∃ c r, serInt i = c :: r ∧ isJsonWs c = false ∧ ¬(c = '{') ∧ ¬(c = '[') ∧
          ¬(c = '"') ∧ ¬(c = 't') ∧ ¬(c = 'f') ∧ ¬(c = 'n') := by
      by_cases hneg : i < 0
      · refine ⟨'-', serNat i.natAbs, ?_, by decide, by decide, by decide, by decide,
          by decide, by decide, by decide⟩
        rw [serInt, if_pos hneg]
      · obtain ⟨d, ds, hds, hd, _⟩ := serNat_shape i.toNat
        refine ⟨d, ds, ?_, digit_not_ws d hd, digit_ne d '{' hd (by decide),
          digit_ne d '[' hd (by decide), digit_ne d '"' hd (by decide),
          digit_ne d 't' hd (by decide), digit_ne d 'f' hd (by decide),
          digit_ne d 'n' hd (by decide)⟩
        rw [serInt, if_neg hneg, hds]
    rw [show (JVal.num i).ser = serInt i from rfl, hs, List.cons_append,
      parseP_value_via_num f c _ hws hc1 hc2 hc3 hc4 hc5 hc6, ← List.cons_append, ← hs, hp]
  | str s =>
    have hstr := parseStrAux_ser s rest
    rw [show (JVal.str s).ser = serStr s from rfl, serStr, List.cons_append, parseP.eq_def]
    simp [skipWs_cons _ _ (show isJsonWs '"' = false from by decide), List.append_assoc, hstr]
  | arr a =>
    cases a with
    | nil =>
      rw [show (JVal.arr .nil).ser = ['[', ']'] from rfl, parseP.eq_def]
      simp [skipWs, List.dropWhile_cons, isJsonWs]
    | cons w t =>
      obtain ⟨c2, r2, hs2, hws2, hne2⟩ := serElems_cons_shape w t
      have hft : (JArr.cons w t).fsize ≤ f := by
        have h1 : (JVal.arr (.cons w t)).fsize = (JArr.cons w t).fsize + 1 := rfl
        omega
      have helems : parseP f .elems (c2 :: (r2 ++ (']' :: rest))) =
          some (.a (.cons w t), rest) := by
        rw [← List.cons_append, ← hs2]
        exact parseSer_elems w t f rest hft
      rw [show (JVal.arr (.cons w t)).ser = '[' :: ((JArr.cons w t).serElems ++ [']'])
        from rfl, List.cons_append, List.append_assoc, List.singleton_append, hs2,
        List.cons_append, parseP.eq_def]
      simp [skipWs_cons _ _ (show isJsonWs '[' = false from by decide),
        skipWs_cons _ _ hws2, hne2, helems]
  | obj o =>
    cases o with
    | nil =>
      rw [show (JVal.obj .nil).ser = ['{', '}'] from rfl, parseP.eq_def]
      simp [skipWs, List.dropWhile_cons, isJsonWs]
    | cons k w t =>
      obtain ⟨r2, hs2⟩ := serMembers_cons_shape k w t
      have hft : (JObj.cons k w t).fsize ≤ f := by
        have h1 : (JVal.obj (.cons k w t)).fsize = (JObj.cons k w t).fsize + 1 := rfl
        omega
      have hmem : parseP f .members ('"' :: (r2 ++ ('}' :: rest))) =
          some (.o (.cons k w t), rest) := by
        rw [← List.cons_append, ← hs2]
        exact parseSer_members k w t f rest hft
      rw [show (JVal.obj (.cons k w t)).ser = '{' :: ((JObj.cons k w t).serMembers ++ ['}'])
        from rfl, List.cons_append, List.append_assoc, List.singleton_append, hs2,
        List.cons_append, parseP.eq_def]
      simp [skipWs_cons _ _ (show isJsonWs '{' = false from by decide),
        skipWs_cons _ _ (show isJsonWs '"' = false from by decide), hmem]
termination_by sizeOf v
/-- Parsing recovers a serialized non-empty member list followed by the
closing brace. -/
theorem parseSer_members (k : List Char) (v : JVal) (t : JObj) (fuel : Nat) (rest : List Char)
    (hf : (JObj.cons k v t).fsize ≤ fuel) :
    parseP fuel .members ((JObj.cons k v t).serMembers ++ ('}' :: rest)) =
      some (.o (.cons k v t), rest) := by
  obtain ⟨f, rfl⟩ : ∃ f, fuel = f + 1 := ⟨fuel - 1, by
    have h1 : (JObj.cons k v t).fsize = v.fsize + t.fsize + 1 := rfl
    omega⟩
  have hvf : v.fsize ≤ f := by
    have h1 : (JObj.cons k v t).fsize = v.fsize + t.fsize + 1 := rfl
    omega
  cases t with
  | nil =>
    have hstr := parseStrAux_ser k (':' :: ' ' :: (v.ser ++ '}' :: rest))
    have hval : parseP f .value (' ' :: (v.ser ++ '}' :: rest)) = some (.v v, '}' :: rest) := by
      rw [parseP_value_ws]
      exact parseSer_val v f ('}' :: rest) hvf (by intro c hc; simp at hc; subst hc; decide)
    rw [show (JObj.cons k v .nil).serMembers = serStr k ++ ':' :: ' ' :: v.ser from rfl,
      serStr, parseP.eq_def]
    simp [skipWs_cons _ _ (show isJsonWs '"' = false from by decide),
      skipWs_cons _ _ (show isJsonWs ':' = false from by decide),
      skipWs_cons _ _ (show isJsonWs '}' = false from by decide),
      List.append_assoc, hstr, hval]
  | cons k2 w t2 =>
    have htf : (JObj.cons k2 w t2).fsize ≤ f := by
      have h1 : (JObj.cons k v (.cons k2 w t2)).fsize =
          v.fsize + (JObj.cons k2 w t2).fsize + 1 := rfl
      omega
    have hstr := parseStrAux_ser k (':' :: ' ' :: (v.ser ++ ',' :: ' ' ::
      ((JObj.cons k2 w t2).serMembers ++ '}' :: rest)))
    have hval : parseP f .value (' ' :: (v.ser ++ ',' :: ' ' ::
        ((JObj.cons k2 w t2).serMembers ++ '}' :: rest))) =
        some (.v v, ',' :: ' ' :: ((JObj.cons k2 w t2).serMembers ++ '}' :: rest)) := by
      rw [parseP_value_ws]
      exact parseSer_val v f _ hvf (by intro c hc; simp at hc; subst hc; decide)
    have hmem : parseP f .members (' ' :: ((JObj.cons k2 w t2).serMembers ++ '}' :: rest)) =
        some (.o (.cons k2 w t2), rest) := by
      rw [parseP_members_ws]
      exact parseSer_members k2 w t2 f rest htf
    rw [show (JObj.cons k v (.cons k2 w t2)).serMembers =
      serStr k ++ ':' :: ' ' :: v.ser ++ ',' :: ' ' :: (JObj.cons k2 w t2).serMembers
      from rfl, serStr, parseP.eq_def]
    simp [skipWs_cons _ _ (show isJsonWs '"' = false from by decide),
      skipWs_cons _ _ (show isJsonWs ':' = false from by decide),
      skipWs_cons _ _ (show isJsonWs ',' = false from by decide),
      List.append_assoc, hstr, hval, hmem]
termination_by sizeOf (JObj.cons k v t)
/-- Parsing recovers a serialized non-empty element list followed by the
closing bracket. -/
theorem parseSer_elems (v : JVal) (t : JArr) (fuel : Nat) (rest : List Char)
    (hf : (JArr.cons v t).fsize ≤ fuel) :
    parseP fuel .elems ((JArr.cons v t).serElems ++ (']' :: rest)) =
      some (.a (.cons v t), rest) := by
  obtain ⟨f, rfl⟩ : ∃ f, fuel = f + 1 := ⟨fuel - 1, by
    have h1 : (JArr.cons v t).fsize = v.fsize + t.fsize + 1 := rfl
    omega⟩
  have hvf : v.fsize ≤ f := by
    have h1 : (JArr.cons v t).fsize = v.fsize + t.fsize + 1 := rfl
    omega
  cases t with
  | nil =>
    have hval : parseP f .value (v.ser ++ (']' :: rest)) = some (.v v, ']' :: rest) :=
      parseSer_val v f (']' :: rest) hvf (by intro c hc; simp at hc; subst hc; decide)
    rw [show (JArr.cons v .nil).serElems = v.ser from rfl, parseP.eq_def]
    simp [skipWs_cons _ _ (show isJsonWs ']' = false from by decide), hval]
  | cons w t2 =>
    have htf : (JArr.cons w t2).fsize ≤ f := by
      have h1 : (JArr.cons v (.cons w t2)).fsize = v.fsize + (JArr.cons w t2).fsize + 1 := rfl
      omega
    have hval : parseP f .value (v.ser ++ ',' :: ' ' ::
        ((JArr.cons w t2).serElems ++ ']' :: rest)) =
        some (.v v, ',' :: ' ' :: ((JArr.cons w t2).serElems ++ ']' :: rest)) :=
      parseSer_val v f _ hvf (by intro c hc; simp at hc; subst hc; decide)
    have helems : parseP f .elems (' ' :: ((JArr.cons w t2).serElems ++ ']' :: rest)) =
        some (.a (.cons w t2), rest) := by
      rw [parseP_elems_ws]
      exact parseSer_elems w t2 f rest htf
    rw [show (JArr.cons v (.cons w t2)).serElems =
      v.ser ++ ',' :: ' ' :: (JArr.cons w t2).serElems from rfl, parseP.eq_def]
    simp [skipWs_cons _ _ (show isJsonWs ',' = false from by decide),
      List.append_assoc, hval, helems]
termination_by sizeOf (JArr.cons v t)
end

mutual
/-- The parsing fuel needed for a value is at most its serialized length. -/
theorem JVal.fsize_le_ser (v : JVal) : v.fsize ≤ v.ser.length := by
  cases v with
  | null => decide
  | bool b => cases b <;> decide
  | num i =>
    have h : serInt i ≠ [] := by
      rw [serInt]
      split
      · simp
      · exact serNat_ne_nil _
    have := List.length_pos.mpr h
    simp only [JVal.fsize, show (JVal.num i).ser = serInt i from rfl]
    omega
  | str s =>
    simp [JVal.fsize, show (JVal.str s).ser = serStr s from rfl, serStr]
  | arr a =>
    have ih := JArr.fsize_le_serElems a
    simp only [JVal.fsize, show (JVal.arr a).ser = '[' :: (a.serElems ++ [']']) from rfl,
      List.length_cons, List.length_append, List.length_singleton]
    omega
  | obj o =>
    have ih := JObj.fsize_le_serMembers o
    simp only [JVal.fsize, show (JVal.obj o).ser = '{' :: (o.serMembers ++ ['}']) from rfl,
      List.length_cons, List.length_append, List.length_singleton]
    omega
/-- Fuel bound for element lists. -/
theorem JArr.fsize_le_serElems (a : JArr) : a.fsize ≤ a.serElems.length + 1 := by
  cases a with
  | nil => simp [JArr.fsize]
  | cons v t =>
    have ihv := JVal.fsize_le_ser v
    cases t with
    | nil =>
      simp only [JArr.fsize, show (JArr.cons v .nil).serElems = v.ser from rfl]
      omega
    | cons w t2 =>
      have iht := JArr.fsize_le_serElems (JArr.cons w t2)
      simp only [JArr.fsize, show (JArr.cons v (.cons w t2)).serElems =
        v.ser ++ ',' :: ' ' :: (JArr.cons w t2).serElems from rfl,
        List.length_append, List.length_cons] at iht ⊢
      omega
/-- Fuel bound for member lists. -/
theorem JObj.fsize_le_serMembers (o : JObj) : o.fsize ≤ o.serMembers.length + 1 := by
  cases o with
  | nil => simp [JObj.fsize]
  | cons k v t =>
    have ihv := JVal.fsize_le_ser v
    cases t with
    | nil =>
      simp only [JObj.fsize, show (JObj.cons k v .nil).serMembers =
        serStr k ++ ':' :: ' ' :: v.ser from rfl, List.length_append, List.length_cons]
      omega
    | cons k2 w t2 =>
      have iht := JObj.fsize_le_serMembers (JObj.cons k2 w t2)
      simp only [JObj.fsize, show (JObj.cons k v (.cons k2 w t2)).serMembers =
        serStr k ++ ':' :: ' ' :: v.ser ++ ',' :: ' ' :: (JObj.cons k2 w t2).serMembers
        from rfl, List.length_append, List.length_cons] at iht ⊢
      omega
end

/-- `json.loads` recovers every `json.dumps` output: the JSON round trip. -/
theorem jsonParse_ser (v : JVal) : jsonParse v.ser = some v := by
  have hb := JVal.fsize_le_ser v
  have h := parseSer_val v (v.ser.length + 1) [] (by omega) (by intro c hc; simp at hc)
  rw [List.append_nil] at h
  rw [jsonParse, h]
  simp [skipWs]

/-! ## Retry policy lemmas -/

theorem withRetryGo_spec {α : Type} (op : Nat → Except (List Char) α) (jitter : Nat → ℚ)
    (mr : Nat) (b : ℚ) (hj : ∀ i, 0 ≤ jitter i) (a : α) :
    ∀ k attempt, attempt + k < mr →
      (∀ i, attempt ≤ i → i < attempt + k →
        ∃ e, op i = .error e ∧ isRateLimitError e = true) →
      op (attempt + k) = .ok a →
      (withRetryGo op jitter mr b (mr - attempt) attempt).1 = .success a ∧
      (withRetryGo op jitter mr b (mr - attempt) attempt).2.2 = k + 1 ∧
      (Finset.range k).sum (fun i => b ^ (attempt + i)) ≤
        (withRetryGo op jitter mr b (mr - attempt) attempt).2.1 := by
  intro k
  induction k with
  | zero =>
    intro attempt hlt hfail hok
    obtain ⟨rem, hrem⟩ : ∃ rem, mr - attempt = rem + 1 := ⟨mr - attempt - 1, by omega⟩
    rw [Nat.add_zero] at hok
    rw [hrem, withRetryGo.eq_def]
    simp [hok]
  | succ k ih =>
    intro attempt hlt hfail hok
    obtain ⟨e0, he0, hrl0⟩ := hfail attempt le_rfl (by omega)
    obtain ⟨rem, hrem⟩ : ∃ rem, mr - attempt = rem + 1 := ⟨mr - attempt - 1, by omega⟩
    have hlt2 : attempt < mr - 1 := by omega
    have hrec := ih (attempt + 1) (by omega) (fun i h1 h2 => hfail i (by omega) (by omega))
      (by rw [show attempt + 1 + k = attempt + (k + 1) from by omega]; exact hok)
    have hremeq : mr - (attempt + 1) = rem := by omega
    rw [hremeq] at hrec
    rw [hrem, withRetryGo.eq_def]
    simp only [he0, hrl0, if_pos hlt2, if_true, ite_true]
    refine ⟨hrec.1, by rw [hrec.2.1], ?_⟩
    have hsum : (Finset.range (k + 1)).sum (fun i => b ^ (attempt + i)) =
        b ^ attempt + (Finset.range k).sum (fun i => b ^ (attempt + 1 + i)) := by
      rw [Finset.sum_range_succ']
      have : ∀ i, b ^ (attempt + (i + 1)) = b ^ (attempt + 1 + i) := by
        intro i; rw [show attempt + (i + 1) = attempt + 1 + i from by omega]
      simp only [this, Nat.add_zero]
      ring
    rw [hsum]
    have h1 := hrec.2.2
    have h2 := hj attempt
    linarith

theorem withRetryGo_retried_rl {α : Type} (op : Nat → Except (List Char) α)
    (jitter : Nat → ℚ) (mr : Nat) (b : ℚ) :
    ∀ remaining attempt i, attempt ≤ i →
      i + 1 < attempt + (withRetryGo op jitter mr b remaining attempt).2.2 →
      ∃ e, op i = .error e ∧ isRateLimitError e = true := by
  intro remaining
  induction remaining with
  | zero =>
    intro attempt i h1 h2
    rw [withRetryGo.eq_def] at h2
    simp at h2
    omega
  | succ rem ih =>
    intro attempt i h1 h2
    cases hop : op attempt with
    | ok a =>
      have hc : (withRetryGo op jitter mr b (rem + 1) attempt).2.2 = 1 := by
        rw [withRetryGo.eq_def]; simp [hop]
      rw [hc] at h2; omega
    | error e =>
      cases hrl : isRateLimitError e with
      | false =>
        have hc : (withRetryGo op jitter mr b (rem + 1) attempt).2.2 = 1 := by
          rw [withRetryGo.eq_def]; simp [hop, hrl]
        rw [hc] at h2; omega
      | true =>
        by_cases hlt : attempt < mr - 1
        · have hc : (withRetryGo op jitter mr b (rem + 1) attempt).2.2 =
              (withRetryGo op jitter mr b rem (attempt + 1)).2.2 + 1 := by
            rw [withRetryGo.eq_def]; simp [hop, hrl, hlt]
          rw [hc] at h2
          rcases Nat.eq_or_lt_of_le h1 with rfl | hgt
          · exact ⟨e, hop, hrl⟩
          · exact ih (attempt + 1) i (by omega) (by omega)
        · have hc : (withRetryGo op jitter mr b (rem + 1) attempt).2.2 = 1 := by
            rw [withRetryGo.eq_def]; simp [hop, hrl, hlt]
          rw [hc] at h2; omega

/-! ## Extractor lemmas -/

theorem dropWhile_cons_false (c : Char) (t : List Char) (h : isPySpace c = false) :
    (c :: t).dropWhile isPySpace = c :: t := by
  simp [List.dropWhile_cons, h]

theorem pyStrip_of_ends (l : List Char) (hh : ∀ c ∈ l.head?, isPySpace c = false)
    (hl : ∀ c ∈ l.getLast?, isPySpace c = false) : pyStrip l = l := by
  have h1 : l.dropWhile isPySpace = l := by
    cases l with
    | nil => rfl
    | cons c t => exact dropWhile_cons_false c t (hh c rfl)
  have h2 : l.reverse.dropWhile isPySpace = l.reverse := by
    cases hrev : l.reverse with
    | nil => rfl
    | cons c t =>
      have hc : c ∈ l.getLast? := by rw [← List.head?_reverse, hrev]; rfl
      exact dropWhile_cons_false c t (hl c hc)
  rw [pyStrip, h1, h2, List.reverse_reverse]

theorem firstIdx_append_none (c : Char) (xs ys : List Char) (h : firstIdx c xs = none) :
    firstIdx c (xs ++ ys) = (firstIdx c ys).map (· + xs.length) := by
  induction xs with
  | nil => simp
  | cons x t ih =>
    rw [firstIdx.eq_def] at h
    by_cases hx : x = c
    · simp [hx] at h
    · simp only [hx, if_false, ite_false] at h
      have ht : firstIdx c t = none := by
        cases hft : firstIdx c t
        · rfl
        · rw [hft] at h; simp at h
      rw [List.cons_append, firstIdx.eq_def]
      simp only [hx, if_false, ite_false, ih ht]
      cases firstIdx c ys
      · simp
      · simp
        omega

theorem firstIdx_cons_self (c : Char) (t : List Char) : firstIdx c (c :: t) = some 0 := by
  rw [firstIdx.eq_def]
  simp

theorem pySplit_sep_free (sep : Char) (xs : List Char) (h : sep ∉ xs) :
    pySplit sep xs = [xs] := by
  induction xs with
  | nil => rfl
  | cons c t ih =>
    have hc : ¬(c = sep) := fun he => h (by simp [he])
    rw [pySplit.eq_def]
    simp only [hc, if_false, ite_false]
    rw [ih (fun hm => h (by simp [hm]))]

theorem pySplit_append_sep (sep : Char) (xs ys : List Char) (h : sep ∉ xs) :
    pySplit sep (xs ++ sep :: ys) = xs :: pySplit sep ys := by
  induction xs with
  | nil =>
    rw [List.nil_append, pySplit.eq_def]
    simp
  | cons c t ih =>
    have hc : ¬(c = sep) := fun he => h (by simp [he])
    rw [List.cons_append, pySplit.eq_def]
    simp only [hc, if_false, ite_false]
    rw [ih (fun hm => h (by simp [hm]))]

theorem slice_middle (pre mid suf : List Char) :
    ((pre ++ (mid ++ suf)).take (pre.length + mid.length)).drop pre.length = mid := by
  induction pre with
  | nil => simp [List.take_left]
  | cons c p ih =>
    rw [List.cons_append, show (c :: p).length = p.length + 1 from rfl,
      show p.length + 1 + mid.length = (p.length + mid.length) + 1 from by omega,
      List.take_succ_cons, List.drop_succ_cons]
    exact ih

theorem escChar_no_newline (c : Char) : '\n' ∉ escChar c := by
  by_cases h1 : c = '"'
  · subst h1; decide
  · by_cases h2 : c = '\\'
    · subst h2; decide
    · by_cases h3 : c = '\n'
      · subst h3; decide
      · by_cases h4 : c = '\r'
        · subst h4; decide
        · by_cases h5 : c = '\t'
          · subst h5; decide
          · rw [escChar, if_neg h1, if_neg h2, if_neg h3, if_neg h4, if_neg h5]
            simp
            exact fun he => h3 he.symm

theorem escList_no_newline (s : List Char) : '\n' ∉ escList s := by
  induction s with
  | nil => simp [escList]
  | cons c t ih =>
    rw [escList]
    intro hm
    rcases List.mem_append.mp hm with hm1 | hm2
    · exact escChar_no_newline c hm1
    · exact ih hm2

theorem serStr_no_newline (s : List Char) : '\n' ∉ serStr s := by
  rw [serStr]
  intro hm
  rcases List.mem_cons.mp hm with he | hm2
  · cases he
  · rcases List.mem_append.mp hm2 with hm3 | hm4
    · exact escList_no_newline s hm3
    · simp at hm4

theorem serNat_no_newline (n : Nat) : '\n' ∉ serNat n := by
  intro hm
  have := serNat_digits n '\n' hm
  exact absurd this (by decide)

theorem serInt_no_newline (i : Int) : '\n' ∉ serInt i := by
  rw [serInt]
  split
  · intro hm
    rcases List.mem_cons.mp hm with he | hm2
    · cases he
    · exact serNat_no_newline _ hm2
  · exact serNat_no_newline _

mutual
/-- A serialized value contains no newline (so it is one line inside a
fenced block). -/
theorem JVal.ser_no_newline (v : JVal) : '\n' ∉ v.ser := by
  cases v with
  | null => decide
  | bool b => cases b <;> decide
  | num i => exact serInt_no_newline i
  | str s => exact serStr_no_newline s
  | arr a =>
    rw [show (JVal.arr a).ser = '[' :: (a.serElems ++ [']']) from rfl]
    intro hm
    rcases List.mem_cons.mp hm with he | hm2
    · cases he
    · rcases List.mem_append.mp hm2 with hm3 | hm4
      · exact JArr.serElems_no_newline a hm3
      · simp at hm4
  | obj o =>
    rw [show (JVal.obj o).ser = '{' :: (o.serMembers ++ ['}']) from rfl]
    intro hm
    rcases List.mem_cons.mp hm with he | hm2
    · cases he
    · rcases List.mem_append.mp hm2 with hm3 | hm4
      · exact JObj.serMembers_no_newline o hm3
      · simp at hm4
/-- Serialized array elements contain no newline. -/
theorem JArr.serElems_no_newline (a : JArr) : '\n' ∉ a.serElems := by
  cases a with
  | nil => simp [show (JArr.nil).serElems = [] from rfl]
  | cons v t =>
    cases t with
    | nil =>
      rw [show (JArr.cons v .nil).serElems = v.ser from rfl]
      exact JVal.ser_no_newline v
    | cons w t2 =>
      rw [show (JArr.cons v (.cons w t2)).serElems =
        v.ser ++ ',' :: ' ' :: (JArr.cons w t2).serElems from rfl]
      intro hm
      rcases List.mem_append.mp hm with hm1 | hm2
      · exact JVal.ser_no_newline v hm1
      · rcases List.mem_cons.mp hm2 with he | hm3
        · cases he
        · rcases List.mem_cons.mp hm3 with he | hm4
          · cases he
          · exact JArr.serElems_no_newline (JArr.cons w t2) hm4
/-- Serialized object members contain no newline. -/
theorem JObj.serMembers_no_newline (o : JObj) : '\n' ∉ o.serMembers := by
  cases o with
  | nil => simp [show (JObj.nil).serMembers = [] from rfl]
  | cons k v t =>
    cases t with
    | nil =>
      rw [show (JObj.cons k v .nil).serMembers = serStr k ++ ':' :: ' ' :: v.ser from rfl]
      intro hm
      rcases List.mem_append.mp hm with hm1 | hm2
      · exact serStr_no_newline k hm1
      · rcases List.mem_cons.mp hm2 with he | hm3
        · cases he
        · rcases List.mem_cons.mp hm3 with he | hm4
          · cases he
          · exact JVal.ser_no_newline v hm4
    | cons k2 w t2 =>
      rw [show (JObj.cons k v (.cons k2 w t2)).serMembers =
        serStr k ++ ':' :: ' ' :: v.ser ++ ',' :: ' ' ::
        (JObj.cons k2 w t2).serMembers from rfl]
      intro hm
      rcases List.mem_append.mp hm with hm1 | hm2
      · rcases List.mem_append.mp hm1 with hm3 | hm4
        · exact serStr_no_newline k hm3
        · rcases List.mem_cons.mp hm4 with he | hm5
          · cases he
          · rcases List.mem_cons.mp hm5 with he | hm6
            · cases he
            · exact JVal.ser_no_newline v hm6
      · rcases List.mem_cons.mp hm2 with he | hm3
        · cases he
        · rcases List.mem_cons.mp hm3 with he | hm4
          · cases he
          · exact JObj.serMembers_no_newline (JObj.cons k2 w t2) hm4
end

theorem getLast?_append_right (xs ys : List Char) (h : ys ≠ []) :
    (xs ++ ys).getLast? = ys.getLast? := by
  rw [← List.head?_reverse, ← List.head?_reverse, List.reverse_append]
  cases hys : ys.reverse with
  | nil => exact absurd (by simpa using hys) h
  | cons c t => simp [hys]

theorem pyFind_concat (c : Char) (pre mid : List Char) (hpre : firstIdx c pre = none)
    (hmid : ∃ t, mid = c :: t) : pyFind c (pre ++ mid) = (pre.length : Int) := by
  obtain ⟨t, ht⟩ := hmid
  rw [pyFind, firstIdx_append_none c _ _ hpre, ht, firstIdx_cons_self]
  simp

theorem pyRFind_concat (c : Char) (pre mid suf : List Char)
    (hsuf : firstIdx c suf.reverse = none) (hmid : ∃ t, mid.reverse = c :: t) :
    pyRFind c (pre ++ (mid ++ suf)) = (pre.length : Int) + mid.length - 1 := by
  obtain ⟨t, ht⟩ := hmid
  rw [pyRFind]
  have hrev : (pre ++ (mid ++ suf)).reverse = suf.reverse ++ (mid.reverse ++ pre.reverse) := by
    simp [List.reverse_append]
  rw [hrev, firstIdx_append_none c _ _ hsuf, ht, List.cons_append, firstIdx_cons_self]
  simp [List.length_append]
  ring

theorem extract_fence_json (mid : List Char) :
    extractCandidate (specFenceJson ('{' :: (mid ++ ['}']))) =
      .ok ('{' :: (mid ++ ['}'])) := by
  have hh : (specFenceJson ('{' :: (mid ++ ['}']))).head? = some '`' := rfl
  have hlast : (specFenceJson ('{' :: (mid ++ ['}']))).getLast? = some '`' := by
    rw [specFenceJson, getLast?_append_right _ _ (by simp),
      getLast?_append_right _ _ (by decide)]
    rfl
  have hstrip : pyStrip (specFenceJson ('{' :: (mid ++ ['}']))) =
      specFenceJson ('{' :: (mid ++ ['}'])) := by
    apply pyStrip_of_ends
    · intro c hc
      rw [hh] at hc
      simp at hc
      subst hc
      decide
    · intro c hc
      rw [hlast] at hc
      simp at hc
      subst hc
      decide
  have hpre : (cs "```json").isPrefixOf (specFenceJson ('{' :: (mid ++ ['}']))) = true := rfl
  have hfind : pyFind '{' (specFenceJson ('{' :: (mid ++ ['}']))) = (8 : Int) := by
    rw [specFenceJson]
    rw [pyFind_concat '{' _ _ (by decide) ⟨(mid ++ ['}']) ++ cs "\n```", by simp⟩]
    rfl
  have hrfind : pyRFind '}' (specFenceJson ('{' :: (mid ++ ['}']))) =
      (8 : Int) + ('{' :: (mid ++ ['}'])).length - 1 := by
    rw [specFenceJson]
    rw [pyRFind_concat '}' _ _ _ (by decide) ⟨mid.reverse ++ ['{'], by simp⟩]
    rfl
  have hslice : pySlice (8 : Int) ((8 : Int) + ('{' :: (mid ++ ['}'])).length - 1 + 1)
      (specFenceJson ('{' :: (mid ++ ['}']))) = '{' :: (mid ++ ['}']) := by
    rw [pySlice, specFenceJson]
    have h1 : ((8 : Int) + ('{' :: (mid ++ ['}'])).length - 1 + 1).toNat =
        (cs "```json\n").length + ('{' :: (mid ++ ['}'])).length := by
      simp [cs]
      omega
    have h2 : ((8 : Int)).toNat = (cs "```json\n").length := by decide
    rw [h1, h2, slice_middle]
  rw [extractCandidate]
  simp only [hstrip, hpre, if_true, ite_true, hfind, hrfind]
  rw [if_pos (by constructor <;> omega)]
  rw [hslice]

theorem extract_fence_bare (mid : List Char) (hnl : '\n' ∉ '{' :: (mid ++ ['}'])) :
    extractCandidate (specFenceBare ('{' :: (mid ++ ['}']))) =
      .ok ('{' :: (mid ++ ['}'])) := by
  have hlast : (specFenceBare ('{' :: (mid ++ ['}']))).getLast? = some '`' := by
    rw [specFenceBare, getLast?_append_right _ _ (by simp),
      getLast?_append_right _ _ (by decide)]
    rfl
  have hstrip : pyStrip (specFenceBare ('{' :: (mid ++ ['}']))) =
      specFenceBare ('{' :: (mid ++ ['}'])) := by
    apply pyStrip_of_ends
    · intro c hc
      rw [show (specFenceBare ('{' :: (mid ++ ['}']))).head? = some '`' from rfl] at hc
      simp at hc
      subst hc
      decide
    · intro c hc
      rw [hlast] at hc
      simp at hc
      subst hc
      decide
  have hjson : (cs "```json").isPrefixOf (specFenceBare ('{' :: (mid ++ ['}']))) = false := rfl
  have hbare : (cs "```").isPrefixOf (specFenceBare ('{' :: (mid ++ ['}']))) = true := rfl
  have hsplit : pySplit '\n' (specFenceBare ('{' :: (mid ++ ['}']))) =
      [cs "```", '{' :: (mid ++ ['}']), cs "```"] := by
    rw [show specFenceBare ('{' :: (mid ++ ['}'])) =
      cs "```" ++ '\n' :: (('{' :: (mid ++ ['}'])) ++ '\n' :: cs "```") from rfl,
      pySplit_append_sep '\n' _ _ (by decide),
      pySplit_append_sep '\n' _ _ hnl]
    rfl
  rw [extractCandidate]
  simp only [hstrip, hjson, hbare, if_false, ite_false, if_true, ite_true, hsplit]
  rfl

theorem extract_plain (mid : List Char) :
    extractCandidate ('{' :: (mid ++ ['}'])) = .ok ('{' :: (mid ++ ['}'])) := by
  have hlast : ('{' :: (mid ++ ['}'])).getLast? = some '}' := by
    rw [show '{' :: (mid ++ ['}']) = ['{'] ++ (mid ++ ['}']) from rfl,
      getLast?_append_right _ _ (by simp), getLast?_append_right _ _ (by decide)]
    rfl
  have hstrip : pyStrip ('{' :: (mid ++ ['}'])) = '{' :: (mid ++ ['}']) := by
    apply pyStrip_of_ends
    · intro c hc
      simp at hc
      subst hc
      decide
    · intro c hc
      rw [hlast] at hc
      simp at hc
      subst hc
      decide
  have hjson : (cs "```json").isPrefixOf ('{' :: (mid ++ ['}'])) = false := rfl
  have hbare : (cs "```").isPrefixOf ('{' :: (mid ++ ['}'])) = false := rfl
  rw [extractCandidate]
  simp [hstrip, hjson, hbare]

/-- The serialization of an object starts with the opening brace and ends
with the closing brace. -/
theorem serObj_shape (o : JObj) : (JVal.obj o).ser = '{' :: (o.serMembers ++ ['}']) := rfl

/-! ## Replace / strip lemmas for the fallback matcher -/

theorem pyReplaceGo_no_match (pat : List Char) :
    ∀ fuel s, containsSub pat s = false → pyReplaceGo pat fuel s = s := by
  intro fuel
  induction fuel with
  | zero => intro s _; rfl
  | succ f ih =>
    intro s h
    cases s with
    | nil => rfl
    | cons c t =>
      rw [containsSub.eq_def] at h
      simp only [Bool.or_eq_false_iff] at h
      rw [pyReplaceGo.eq_def]
      simp [h.1, ih t h.2]

theorem pyReplace_no_match (pat s : List Char) (h : containsSub pat s = false) :
    pyReplace pat s = s := by
  rw [pyReplace]
  split
  · rfl
  · exact pyReplaceGo_no_match pat s.length s h

theorem mem_dropWhile_of_not (p : Char → Bool) (c : Char) :
    ∀ l : List Char, c ∈ l → p c = false → c ∈ l.dropWhile p := by
  intro l
  induction l with
  | nil => intro h _; cases h
  | cons x t ih =>
    intro hm hp
    rcases List.mem_cons.mp hm with rfl | hmt
    · rw [List.dropWhile_cons, hp]
      simp
    · rw [List.dropWhile_cons]
      by_cases hx : p x = true
      · simp only [hx, if_true, ite_true]
        exact ih hmt hp
      · simp only [Bool.not_eq_true] at hx
        simp only [hx, if_false, ite_false]
        exact List.mem_cons.mpr (Or.inr hmt)

theorem pyStrip_ne_nil (l : List Char) (c : Char) (hm : c ∈ l) (hc : isPySpace c = false) :
    pyStrip l ≠ [] := by
  have h1 : c ∈ l.dropWhile isPySpace := mem_dropWhile_of_not _ c l hm hc
  have h2 : c ∈ (l.dropWhile isPySpace).reverse := by simpa using h1
  have h3 : c ∈ ((l.dropWhile isPySpace).reverse).dropWhile isPySpace :=
    mem_dropWhile_of_not _ c _ h2 hc
  intro he
  rw [pyStrip] at he
  have h4 := List.reverse_eq_nil_iff.mp he
  rw [h4] at h3
  cases h3

theorem isPrefixOf_mem : ∀ (pat s : List Char), pat.isPrefixOf s = true → ∀ c ∈ pat, c ∈ s
  | [], _, _, c, hc => by cases hc
  | p :: pt, [], h, c, hc => by simp [List.isPrefixOf] at h
  | p :: pt, x :: t, h, c, hc => by
    simp only [List.isPrefixOf, Bool.and_eq_true, beq_iff_eq] at h
    rcases List.mem_cons.mp hc with rfl | hct
    · exact List.mem_cons.mpr (Or.inl h.1)
    · exact List.mem_cons.mpr (Or.inr (isPrefixOf_mem pt t h.2 c hct))

theorem containsSub_mem (pat : List Char) (c : Char) (hc : c ∈ pat) :
    ∀ s, containsSub pat s = true → c ∈ s := by
  intro s
  induction s with
  | nil =>
    intro h
    rw [containsSub.eq_def] at h
    simp at h
    subst h
    cases hc
  | cons x t ih =>
    intro h
    rw [containsSub.eq_def] at h
    simp only [Bool.or_eq_true] at h
    rcases h with h1 | h2
    · exact isPrefixOf_mem pat (x :: t) h1 c hc
    · exact List.mem_cons.mpr (Or.inr (ih h2))

theorem not_space_of_toLower_t (d : Char) (hd : d.toLower = 't') : isPySpace d = false := by
  cases hsp : isPySpace d
  · rfl
  · exfalso
    have hdd : d.toLower = d := by
      simp only [isPySpace, Bool.or_eq_true, decide_eq_true_eq] at hsp
      rcases hsp with ((((rfl | rfl) | rfl) | rfl) | rfl) | rfl <;> decide
    rw [hdd] at hd
    subst hd
    exact absurd hsp (by decide)

/-- A non-whitespace character survives into the stripped title whenever
the lowercased input contains "task". -/
theorem fallback_input_has_nonspace (input : List Char)
    (h : containsSub (cs "task") (lowerStr input) = true) :
    ∃ d ∈ input, isPySpace d = false := by
  have ht : 't' ∈ lowerStr input := containsSub_mem (cs "task") 't' (by decide) _ h
  obtain ⟨d, hd, hlow⟩ := List.mem_map.mp ht
  exact ⟨d, hd, not_space_of_toLower_t d hlow⟩

/-- The create rule of the fallback matcher, shared shape of its two
outcomes (helper for the claims about rule 2). -/
theorem processFallback_create_branch (input : List Char) (bk : Backend)
    (h1 : listRuleMatches (lowerStr input) = false)
    (h2 : createRuleMatches (lowerStr input) = true) :
    processFallback input bk =
      (if (fallbackTitle input).isEmpty then
        ((.chat .fbAskTitle : RouterResult), ([] : List (JVal × JVal)))
       else match bk (.str (cs "create_task")) (createParams (fallbackTitle input)) with
       | .ok r => (.toolResult (.fbTaskCreated (fallbackTitle input)) r,
           [(.str (cs "create_task"), createParams (fallbackTitle input))])
       | .error e => (.errorResult (.fbErrCreating e),
           [(.str (cs "create_task"), createParams (fallbackTitle input))])) := by
  rw [processFallback]
  simp [h1, h2]

theorem processFallback_create_dispatch (input : List Char) (bk : Backend)
    (h1 : listRuleMatches (lowerStr input) = false)
    (h2 : createRuleMatches (lowerStr input) = true)
    (h3 : (fallbackTitle input).isEmpty = false) :
    (processFallback input bk).2 =
      [(.str (cs "create_task"), createParams (fallbackTitle input))] := by
  rw [processFallback_create_branch input bk h1 h2, if_neg (by simp [h3])]
  cases bk (.str (cs "create_task")) (createParams (fallbackTitle input)) <;> rfl

/-- Every dispatch records exactly the forwarded call. -/
theorem dispatchToolCall_snd (toolName params : JVal) (bk : Backend) :
    (dispatchToolCall toolName params bk).2 = [(toolName, params)] := by
  cases hbk : bk toolName params with
  | error e => simp [dispatchToolCall, hbk]
  | ok reply => cases hn : normalizeToolReply reply <;> simp [dispatchToolCall, hbk, hn]

/-! ## Claims -/

/-- Claim C1, counterexample: Python `strip()` removes only whitespace, so
`"create task: Buy milk"` dispatches with title `": Buy milk"` (the colon
is kept), not `"Buy milk"`; and `"create task:"` leaves the non-empty
remainder `":"`, so it dispatches instead of returning the ask-for-title
`Chat`. -/
theorem claim_c1_cex :
    callTitle (processFallback (cs "create task: Buy milk") bkOk).2 =
      some (cs ": Buy milk") ∧
    callTitle (processFallback (cs "create task: Buy milk") bkOk).2 ≠
      some (cs "Buy milk") ∧
    (processFallback (cs "create task:") bkOk).1.isChatKind = false ∧
    ((processFallback (cs "create task:") bkOk).2).isEmpty = false :=
  ⟨by decide, by decide, by decide, by decide⟩

/-- Claim C1 (amended): for every utterance that matches the fallback
create rule (and not the list rule before it), the matcher strips the
literal lowercase phrases "create task"/"add task"/"new task" and trims
whitespace; if the remainder is empty it returns the ask-for-title `Chat`
and dispatches nothing, otherwise it dispatches `create_task` with
parameters `title = remainder`, `priority = "medium"`.  Unlike the
claim's examples, trimming removes only whitespace, so
`"create task: Buy milk"` dispatches with title `": Buy milk"` and
`"create task:"` dispatches with title `":"` rather than chatting. -/
theorem claim_c1_amended (input : List Char) (bk : Backend)
    (h1 : listRuleMatches (lowerStr input) = false)
    (h2 : createRuleMatches (lowerStr input) = true) :
    (fallbackTitle input = [] → processFallback input bk = (.chat .fbAskTitle, [])) ∧
    (fallbackTitle input ≠ [] → (processFallback input bk).2 =
      [(.str (cs "create_task"), createParams (fallbackTitle input))]) := by
  constructor
  · intro h3
    rw [processFallback_create_branch input bk h1 h2, if_pos (by simp [h3])]
  · intro h3
    refine processFallback_create_dispatch input bk h1 h2 ?_
    cases hemp : (fallbackTitle input).isEmpty
    · rfl
    · exact absurd (by simpa using hemp) h3

/-- Witness for C1's amended theorem at the concrete input
`"create task: Buy milk"`. -/
theorem claim_c1_witness :
    listRuleMatches (lowerStr (cs "create task: Buy milk")) = false ∧
    createRuleMatches (lowerStr (cs "create task: Buy milk")) = true ∧
    fallbackTitle (cs "create task: Buy milk") ≠ [] ∧
    (processFallback (cs "create task: Buy milk") bkOk).2 =
      [(.str (cs "create_task"),
        createParams (fallbackTitle (cs "create task: Buy milk")))] :=
  ⟨by decide, by decide, by decide,
    (claim_c1_amended (cs "create task: Buy milk") bkOk (by decide) (by decide)).2
      (by decide)⟩

/-- Claim C2: an operation that fails rate-limit-classified exactly `k`
times (`k < 3`) and then succeeds makes the retry policy (maxRetries 3,
backoffFactor 1.5) return the success value after exactly `k` retries
(`k + 1` invocations), with cumulative sleep at least
`Σ_{i<k} 1.5^i` (each sleep being `1.5^attempt` plus a jitter in [0,1]). -/
theorem claim_c2 {α : Type} (op : Nat → Except (List Char) α) (jitter : Nat → ℚ)
    (k : Nat) (a : α) (hj : ∀ i, 0 ≤ jitter i ∧ jitter i ≤ 1) (hk : k < 3)
    (hfail : ∀ i, i < k → ∃ e, op i = .error e ∧ isRateLimitError e = true)
    (hok : op k = .ok a) :
    (withRetry op jitter).1 = .success a ∧
    (withRetry op jitter).2.2 = k + 1 ∧
    (Finset.range k).sum (fun i => (3 / 2 : ℚ) ^ i) ≤ (withRetry op jitter).2.1 := by
  have h := withRetryGo_spec op jitter 3 (3 / 2) (fun i => (hj i).1) a k 0 (by omega)
    (fun i hi1 hi2 => hfail i (by omega)) (by simpa using hok)
  simpa [withRetry] using h

/-- Witness for C2 with one rate-limited failure then success. -/
theorem claim_c2_witness :
    (∀ i, 0 ≤ zeroJitter i ∧ zeroJitter i ≤ 1) ∧ 1 < 3 ∧
    (∀ i, i < 1 → ∃ e, opOnce i = .error e ∧ isRateLimitError e = true) ∧
    opOnce 1 = .ok 7 ∧
    ((withRetry opOnce zeroJitter).1 = .success 7 ∧
      (withRetry opOnce zeroJitter).2.2 = 1 + 1 ∧
      (Finset.range 1).sum (fun i => (3 / 2 : ℚ) ^ i) ≤ (withRetry opOnce zeroJitter).2.1) := by
  have hj : ∀ i, (0 : ℚ) ≤ zeroJitter i ∧ zeroJitter i ≤ 1 := by
    intro i
    constructor <;> norm_num [zeroJitter]
  have hfail : ∀ i, i < 1 → ∃ e, opOnce i = .error e ∧ isRateLimitError e = true := by
    intro i hi
    interval_cases i
    exact ⟨cs "429", rfl, by decide⟩
  exact ⟨hj, by norm_num, hfail, rfl, claim_c2 opOnce zeroJitter 1 7 hj (by norm_num) hfail rfl⟩

/-- Claim C3: a first-attempt failure that is not rate-limit-classified is
re-raised immediately: one invocation, zero retries, zero sleep.  And in
every run, any attempt that got retried had failed rate-limit-classified. -/
theorem claim_c3 {α : Type} (op : Nat → Except (List Char) α) (jitter : Nat → ℚ)
    (e : List Char) (h0 : op 0 = .error e) (hnr : isRateLimitError e = false) :
    withRetry op jitter = (.raised e, 0, 1) ∧
    ∀ (op2 : Nat → Except (List Char) α) (j2 : Nat → ℚ) (i : Nat),
      i + 1 < (withRetry op2 j2).2.2 →
      ∃ e2, op2 i = .error e2 ∧ isRateLimitError e2 = true := by
  constructor
  · rw [withRetry, withRetryGo.eq_def]
    simp [h0, hnr]
  · intro op2 j2 i hi
    exact withRetryGo_retried_rl op2 j2 3 (3 / 2) 3 0 i (Nat.zero_le i) (by simpa using hi)

/-- Witness for C3 at a concrete non-rate-limit failure. -/
theorem claim_c3_witness :
    opBoom 0 = .error (cs "boom") ∧ isRateLimitError (cs "boom") = false ∧
    withRetry opBoom zeroJitter = (.raised (cs "boom"), 0, 1) :=
  ⟨rfl, by decide, (claim_c3 opBoom zeroJitter (cs "boom") rfl (by decide)).1⟩

/-- Claim C4, counterexample: when the model fails rate-limited on all
three attempts, the router does NOT surface a Chat-kind degraded-mode
notice — it returns an Error-kind result (the retry decorator's sentinel
dict makes `analysis.strip()` raise `AttributeError`, which the outer
handler converts to the error dict). -/
theorem claim_c4_cex :
    (withRetry op429 zeroJitter).1 = .rateLimited ∧
    (processRequest false (cs "list my tasks") false [] (withRetry op429 zeroJitter).1
      bkOk).1.isChatKind = false ∧
    (processRequest false (cs "list my tasks") false [] (withRetry op429 zeroJitter).1
      bkOk).1.isErrorKind = true :=
  ⟨rfl, rfl, rfl⟩

/-- Claim C4 (amended): when every one of the 3 attempts fails
rate-limit-classified, the retry policy returns the `rate_limited`
sentinel rather than raising; the router then fails internally on
`sentinel.strip()`, its outer handler catches the `AttributeError`, and an
Error-kind result ("Error processing request") is returned — the session
does not crash, but no Chat-kind notice is produced. -/
theorem claim_c4_amended (op : Nat → Except (List Char) (List Char)) (jitter : Nat → ℚ)
    (input : List Char) (useDyn : Bool) (tools : List (List Char)) (bk : Backend)
    (hfail : ∀ i, i < 3 → ∃ e, op i = .error e ∧ isRateLimitError e = true) :
    (withRetry op jitter).1 = .rateLimited ∧
    processRequest false input useDyn tools (withRetry op jitter).1 bk =
      (.errorResult (.requestFailed .attrStripOnDict), []) := by
  obtain ⟨e0, h0, r0⟩ := hfail 0 (by omega)
  obtain ⟨e1, h1, r1⟩ := hfail 1 (by omega)
  obtain ⟨e2, h2, r2⟩ := hfail 2 (by omega)
  have s2 : (withRetryGo op jitter 3 (3 / 2) 1 2).1 = .rateLimited := by
    rw [withRetryGo.eq_def]
    simp [h2, r2]
  have s1 : (withRetryGo op jitter 3 (3 / 2) 2 1).1 = .rateLimited := by
    rw [withRetryGo.eq_def]
    simp [h1, r1, s2]
  have s0 : (withRetry op jitter).1 = .rateLimited := by
    rw [withRetry, withRetryGo.eq_def]
    simp [h0, r0, s1]
  refine ⟨s0, ?_⟩
  rw [s0]
  rfl

/-- Witness for C4's amended theorem at the always-429 operation. -/
theorem claim_c4_witness :
    (∀ i, i < 3 → ∃ e, op429 i = .error e ∧ isRateLimitError e = true) ∧
    (withRetry op429 zeroJitter).1 = .rateLimited ∧
    processRequest false (cs "hello") false [] (withRetry op429 zeroJitter).1 bkOk =
      (.errorResult (.requestFailed .attrStripOnDict), []) := by
  have hf : ∀ i, i < 3 → ∃ e, op429 i = .error e ∧ isRateLimitError e = true :=
    fun i _ => ⟨cs "429 quota exceeded", rfl, by decide⟩
  exact ⟨hf, (claim_c4_amended op429 zeroJitter (cs "hello") false [] bkOk hf).1,
    (claim_c4_amended op429 zeroJitter (cs "hello") false [] bkOk hf).2⟩

/-- Claim C5: for every JSON object `O`, the extractor recovers the exact
serialization of `O` from all three shapes — fenced with a "json" tag,
bare-fenced, and plain — and parsing it returns a value structurally
equal to `O`. -/
theorem claim_c5 (o : JObj) :
    extractCandidate (specFenceJson (JVal.obj o).ser) = .ok (JVal.obj o).ser ∧
    extractCandidate (specFenceBare (JVal.obj o).ser) = .ok (JVal.obj o).ser ∧
    extractCandidate (JVal.obj o).ser = .ok (JVal.obj o).ser ∧
    jsonParse (JVal.obj o).ser = some (.obj o) := by
  have hs := serObj_shape o
  refine ⟨?_, ?_, ?_, jsonParse_ser (.obj o)⟩
  · rw [hs]
    exact extract_fence_json o.serMembers
  · rw [hs]
    refine extract_fence_bare o.serMembers ?_
    rw [← hs]
    exact JVal.ser_no_newline (.obj o)
  · rw [hs]
    exact extract_plain o.serMembers

/-- Claim C6: whenever the extracted candidate fails to parse as JSON, the
router returns the Error-kind parse-failure result ("Failed to parse AI
response") and, being a total function, raises nothing to its caller. -/
theorem claim_c6 (input text cand : List Char) (useDyn : Bool) (tools : List (List Char))
    (bk : Backend) (hex : extractCandidate text = .ok cand) (hp : jsonParse cand = none) :
    processRequest false input useDyn tools (.success text) bk =
      (.errorResult .parseFailure, []) := by
  rw [processRequest]
  simp [hex, hp]

/-- Witness for C6 on unparsable model output. -/
theorem claim_c6_witness :
    extractCandidate (cs "not json") = .ok (cs "not json") ∧
    jsonParse (cs "not json") = none ∧
    processRequest false (cs "hi") false [] (.success (cs "not json")) bkOk =
      (.errorResult .parseFailure, []) :=
  ⟨rfl, rfl, claim_c6 (cs "hi") (cs "not json") (cs "not json") false [] bkOk rfl rfl⟩

/-- Claim C7: in dynamic mode a proposed tool name absent from the
discovered name list is rejected with the tool-not-available Error-kind
result and zero backend calls; in static mode no membership check happens
and the call (whatever its name) is forwarded to the backend. -/
theorem claim_c7 (input text cand : List Char) (o : JObj) (tools : List (List Char))
    (bk : Backend) (hex : extractCandidate text = .ok cand)
    (hp : jsonParse cand = some (.obj o))
    (ha : isToolCallAction (o.getD (cs "action") .null) = true) :
    (toolNameMem (o.getD (cs "tool") .null) tools = false →
      processRequest false input true tools (.success text) bk =
        (.errorResult (.toolNotAvailable (o.getD (cs "tool") .null)), [])) ∧
    (processRequest false input false tools (.success text) bk).2 =
      [(o.getD (cs "tool") .null, o.getD (cs "parameters") (.obj .nil))] := by
  constructor
  · intro hmem
    rw [processRequest]
    simp [hex, hp, handleParsed, ha, handleToolCall, hmem]
  · rw [processRequest]
    simp [hex, hp, handleParsed, ha, handleToolCall, dispatchToolCall_snd]

/-- Witness for C7: dynamic schema `["list_tasks"]` rejects a proposed
`delete_task` with no backend call; static mode forwards it. -/
theorem claim_c7_witness :
    extractCandidate (cs "\x7b\"action\": \"tool_call\", \"tool\": \"delete_task\"\x7d") =
      .ok (cs "\x7b\"action\": \"tool_call\", \"tool\": \"delete_task\"\x7d") ∧
    jsonParse (cs "\x7b\"action\": \"tool_call\", \"tool\": \"delete_task\"\x7d") =
      some (.obj (.cons (cs "action") (.str (cs "tool_call"))
        (.cons (cs "tool") (.str (cs "delete_task")) .nil))) ∧
    processRequest false (cs "hi") true [cs "list_tasks"]
      (.success (cs "\x7b\"action\": \"tool_call\", \"tool\": \"delete_task\"\x7d")) bkOk =
      (.errorResult (.toolNotAvailable (.str (cs "delete_task"))), []) :=
  ⟨rfl, rfl,
    (claim_c7 (cs "hi") (cs "\x7b\"action\": \"tool_call\", \"tool\": \"delete_task\"\x7d")
      (cs "\x7b\"action\": \"tool_call\", \"tool\": \"delete_task\"\x7d")
      (.cons (cs "action") (.str (cs "tool_call"))
        (.cons (cs "tool") (.str (cs "delete_task")) .nil))
      [cs "list_tasks"] bkOk rfl rfl (by decide)).1 (by decide)⟩

/-- Claim C8, counterexample: the code tests `tool_result.get("message")`
for truthiness, not key presence — a reply containing `message` with an
empty-string value is normalized to the generic success text, not to a
message-carrying success as the claim states. -/
theorem claim_c8_cex :
    normalizeToolReply (.cons (cs "message") (.str []) .nil) = .ok .okGeneric ∧
    isOkMsgKind (normalizeToolReply (.cons (cs "message") (.str []) .nil)) = false :=
  ⟨rfl, rfl⟩

/-- Claim C8 (amended): an `error` key makes the normalized result the
failure carrying that value; otherwise a *truthy* `message` value yields a
success carrying the message, with the task detail block (title, priority,
completion flag) added exactly when a `task` object is also present;
otherwise (no `error`, message absent or falsy) the generic
operation-completed text results.  The raw reply is always retained in
the dispatched result. -/
theorem claim_c8_amended (reply : JObj) (toolName params : JVal) (bk : Backend)
    (n : NormalizedText) :
    (reply.hasKey (cs "error") = true →
      normalizeToolReply reply = .ok (.errMsg (reply.getD (cs "error") .null))) ∧
    (reply.hasKey (cs "error") = false →
      pyTruthy (reply.getD (cs "message") .null) = true →
      reply.hasKey (cs "task") = false →
      normalizeToolReply reply = .ok (.okMsg (reply.getD (cs "message") .null))) ∧
    (∀ t : JObj, reply.hasKey (cs "error") = false →
      pyTruthy (reply.getD (cs "message") .null) = true →
      reply.getD (cs "task") .null = .obj t →
      normalizeToolReply reply = .ok (.okMsgWithTask (reply.getD (cs "message") .null)
        (t.getD (cs "title") .null) (t.getD (cs "priority") .null)
        (t.getD (cs "completed") .null))) ∧
    (reply.hasKey (cs "error") = false →
      pyTruthy (reply.getD (cs "message") .null) = false →
      normalizeToolReply reply = .ok .okGeneric) ∧
    (bk toolName params = .ok reply → normalizeToolReply reply = .ok n →
      dispatchToolCall toolName params bk =
        (.toolResult (.normalized n) reply, [(toolName, params)])) := by
  refine ⟨?_, ?_, ?_, ?_, ?_⟩
  · intro he
    rw [normalizeToolReply, if_pos he]
  · intro he hm ht
    rw [normalizeToolReply, if_neg (by simp [he]), if_pos hm, if_neg (by simp [ht])]
  · intro t he hm ht
    have hk : reply.hasKey (cs "task") = true := by
      rw [JObj.hasKey]
      rw [JObj.getD] at ht
      cases hg : reply.get? (cs "task") with
      | none => rw [hg] at ht; simp at ht
      | some v => rfl
    rw [normalizeToolReply, if_neg (by simp [he]), if_pos hm, if_pos hk, ht]
  · intro he hm
    rw [normalizeToolReply, if_neg (by simp [he]), if_neg (by simp [hm])]
  · intro hbk hn
    rw [dispatchToolCall, hbk]
    simp [hn]

/-- Witness for C8's amended theorem at a truthy-message reply. -/
theorem claim_c8_witness :
    (JObj.cons (cs "message") (.str (cs "done")) .nil).hasKey (cs "error") = false ∧
    pyTruthy ((JObj.cons (cs "message") (.str (cs "done")) .nil).getD (cs "message") .null) =
      true ∧
    (JObj.cons (cs "message") (.str (cs "done")) .nil).hasKey (cs "task") = false ∧
    normalizeToolReply (JObj.cons (cs "message") (.str (cs "done")) .nil) =
      .ok (.okMsg (.str (cs "done"))) ∧
    dispatchToolCall (.str (cs "create_task")) (.obj .nil) bkMsg =
      (.toolResult (.normalized (.okMsg (.str (cs "done"))))
        (JObj.cons (cs "message") (.str (cs "done")) .nil),
       [(.str (cs "create_task"), .obj .nil)]) := by
  refine ⟨by decide, by decide, by decide, ?_, ?_⟩
  · exact ((claim_c8_amended (.cons (cs "message") (.str (cs "done")) .nil)
      (.str (cs "create_task")) (.obj .nil) bkMsg (.okMsg (.str (cs "done")))).2.1
      (by decide) (by decide) (by decide))
  · exact ((claim_c8_amended (.cons (cs "message") (.str (cs "done")) .nil)
      (.str (cs "create_task")) (.obj .nil) bkMsg (.okMsg (.str (cs "done")))).2.2.2.2
      rfl ((claim_c8_amended (.cons (cs "message") (.str (cs "done")) .nil)
        (.str (cs "create_task")) (.obj .nil) bkMsg (.okMsg (.str (cs "done")))).2.1
        (by decide) (by decide) (by decide)))

/-- Claim C9: with the default ttl of 300s and a schema fetched at `t0`, a
status query at `t0+61` serves the cached schema without fetching and
reports "cached" (61s is past the 60s fresh window but inside the ttl); a
non-forced query at `t0+301` (age ≥ ttl) attempts a re-fetch and, when it
succeeds, replaces the timestamp so the status computed immediately after
is "fresh"; an absent schema always reports "failed". -/
theorem claim_c9 (d fetch2 : JObj) (t0 : ℚ) (hd : pyTruthy (.obj d) = true)
    (hf2 : pyTruthy (.obj fetch2) = true) :
    (∀ f : Option JObj,
      getDynamicTools ⟨some d, t0, 300⟩ false (t0 + 61) f =
        (some d, ⟨some d, t0, 300⟩, false) ∧
      (getToolsInfo ⟨some d, t0, 300⟩ (t0 + 61) (t0 + 61) f).1.cacheStatus = cs "cached" ∧
      (getToolsInfo ⟨some d, t0, 300⟩ (t0 + 61) (t0 + 61) f).2.2 = false) ∧
    ((getToolsInfo ⟨some d, t0, 300⟩ (t0 + 301) (t0 + 301) (some fetch2)).2.2 = true ∧
      (getToolsInfo ⟨some d, t0, 300⟩ (t0 + 301) (t0 + 301) (some fetch2)).1.cacheStatus =
        cs "fresh" ∧
      (getToolsInfo ⟨some d, t0, 300⟩ (t0 + 301) (t0 + 301) (some fetch2)).2.1 =
        ⟨some fetch2, t0 + 301, 300⟩) ∧
    (∀ now : ℚ, (getToolsInfo ⟨none, t0, 300⟩ now now none).1.cacheStatus = cs "failed" ∧
      (getToolsInfo ⟨none, t0, 300⟩ now now none).1.available = false) := by
  have h301 : ¬((301 : ℚ) < 300) := by norm_num
  have h61a : ¬((61 : ℚ) < 60) := by norm_num
  have h61b : (61 : ℚ) < 300 := by norm_num
  have h0a : (0 : ℚ) < 60 := by norm_num
  have hcached : ∀ f, getDynamicTools ⟨some d, t0, 300⟩ false (t0 + 61) f =
      (some d, ⟨some d, t0, 300⟩, false) := by
    intro f
    rw [getDynamicTools.eq_def]
    simp [cacheTruthy, hd, h61b]
  refine ⟨?_, ⟨?_, ?_, ?_⟩, ?_⟩
  · intro f
    refine ⟨hcached f, ?_, ?_⟩
    · rw [getToolsInfo.eq_def]
      simp [hcached f, hd, cacheStatusOf, h61a, h61b]
    · rw [getToolsInfo.eq_def]
      simp [hcached f, hd]
  · rw [getToolsInfo.eq_def, getDynamicTools.eq_def]
    simp [cacheTruthy, hd, h301, hf2]
  · rw [getToolsInfo.eq_def, getDynamicTools.eq_def]
    simp [cacheTruthy, hd, h301, hf2, cacheStatusOf, h0a]
  · rw [getToolsInfo.eq_def, getDynamicTools.eq_def]
    simp [cacheTruthy, hd, h301, hf2]
  · intro now
    rw [getToolsInfo.eq_def, getDynamicTools.eq_def]
    simp [cacheTruthy]

/-- Witness for C9 with a concrete schema dict fetched at `t0 = 0`. -/
theorem claim_c9_witness :
    pyTruthy (.obj (JObj.cons (cs "tools") (.arr .nil) .nil)) = true ∧
    (getToolsInfo ⟨some (JObj.cons (cs "tools") (.arr .nil) .nil), 0, 300⟩ (0 + 61) (0 + 61)
      none).1.cacheStatus = cs "cached" ∧
    (getToolsInfo ⟨some (JObj.cons (cs "tools") (.arr .nil) .nil), 0, 300⟩ (0 + 301) (0 + 301)
      (some (JObj.cons (cs "tools") (.arr .nil) .nil))).1.cacheStatus = cs "fresh" :=
  ⟨by decide,
    ((claim_c9 (JObj.cons (cs "tools") (.arr .nil) .nil)
      (JObj.cons (cs "tools") (.arr .nil) .nil) 0 (by decide) (by decide)).1 none).2.1,
    (claim_c9 (JObj.cons (cs "tools") (.arr .nil) .nil)
      (JObj.cons (cs "tools") (.arr .nil) .nil) 0 (by decide) (by decide)).2.1.2.1⟩

/-- Claim C10: rule matching runs on a lowercased copy while phrase
stripping runs case-sensitively on the original utterance: when none of
the literal lowercase phrases "create task"/"add task"/"new task" occurs
in the original, all three replacements are no-ops, so the entire
original utterance (whitespace-trimmed) becomes the dispatched title;
since the lowercased utterance contains "task", that title is non-empty,
so the empty-remainder `Chat` branch is unreachable for such inputs. -/
theorem claim_c10 (input : List Char) (bk : Backend)
    (h1 : listRuleMatches (lowerStr input) = false)
    (h2 : createRuleMatches (lowerStr input) = true)
    (h3 : containsSub (cs "create task") input = false)
    (h4 : containsSub (cs "add task") input = false)
    (h5 : containsSub (cs "new task") input = false) :
    fallbackTitle input = pyStrip input ∧
    pyStrip input ≠ [] ∧
    (processFallback input bk).2 =
      [(.str (cs "create_task"), createParams (pyStrip input))] := by
  have htitle : fallbackTitle input = pyStrip input := by
    rw [fallbackTitle, pyReplace_no_match _ _ h3, pyReplace_no_match _ _ h4,
      pyReplace_no_match _ _ h5]
  have htask : containsSub (cs "task") (lowerStr input) = true := by
    have h2b := h2
    rw [createRuleMatches] at h2b
    simp only [Bool.and_eq_true] at h2b
    exact h2b.2
  obtain ⟨dd, hdd, hsp⟩ := fallback_input_has_nonspace input htask
  have hne : pyStrip input ≠ [] := pyStrip_ne_nil input dd hdd hsp
  have hne2 : fallbackTitle input ≠ [] := by rw [htitle]; exact hne
  refine ⟨htitle, hne, ?_⟩
  have hd := processFallback_create_dispatch input bk h1 h2 (by
    cases hemp : (fallbackTitle input).isEmpty
    · rfl
    · exact absurd (by simpa using hemp) hne2)
  rw [hd, htitle]

/-- Witness for C10 at the mixed-case input `"Create Task Buy milk"`. -/
theorem claim_c10_witness :
    listRuleMatches (lowerStr (cs "Create Task Buy milk")) = false ∧
    createRuleMatches (lowerStr (cs "Create Task Buy milk")) = true ∧
    containsSub (cs "create task") (cs "Create Task Buy milk") = false ∧
    (processFallback (cs "Create Task Buy milk") bkOk).2 =
      [(.str (cs "create_task"), createParams (pyStrip (cs "Create Task Buy milk")))] :=
  ⟨by decide, by decide, by decide,
    (claim_c10 (cs "Create Task Buy milk") bkOk (by decide) (by decide) (by decide)
      (by decide) (by decide)).2.2⟩

